import Mathlib

/-!
# Running-time experiments: search, sort and matrix product

A shallow embedding of `running_times/compare_plot.cpp` and
`running_times/matrix_plot.cpp`.

Conventions of the embedding.

* A `std::vector<T>` is a `List T`.  Every subscript `v[i]` is a checked read or write
  (`readAt`, `writeAt`): a computation that would touch a slot outside the vector, or that the
  C++ run-time aborts, has the value `none`.
* `int`, `long long` and `size_t` variables are mathematical integers.  All container sizes in
  the two programs are taken from `int` values, so `int n = v.size()` is exact.
* `double` arithmetic.  The matrix product is written once, over an arbitrary arithmetic
  `Arith` of the entries: `binary64` is the arithmetic of IEEE 754 double precision (round to
  nearest, ties to even; a result that is not finite, an infinity or a NaN, is `none`) and
  `exactArith` is that of the rationals.  The claims stated over exact arithmetic, the random
  matrices and the fit of the constant use the rationals.
* Every call of `linearSearch`, `sortArray` or `bubbleSort` made by `main` goes through a call
  primitive (`callLinearSearch`, `callSortArray`, `callBubbleSort`), which runs the function and
  appends the call, with its result, to the trace of the run.
* The outside world (random sources, the clock, the plotting tool) is an explicit argument,
  `World`, quantified over in the theorems.
-/

namespace RunningTimes

/-! ## Vectors and counted loops -/

/-- Counted loop `for (int k = 0; k < hi; k++) s = body(k, s)`; the bound does not change while
the loop runs, so the body is run for `k = 0, 1, ..., hi - 1` (not at all when `hi ≤ 0`). -/
def forUpTo {σ : Type} (hi : Int) (body : Int → σ → Option σ) (init : σ) : Option σ :=
  (List.range hi.toNat).foldlM (fun s (k : Nat) => body (k : Int) s) init

/-- Checked read `v[i]`. -/
def readAt {α : Type} (v : List α) (i : Int) : Option α :=
  if 0 ≤ i then v[i.toNat]? else none

/-- Checked write `v[i] = x`. -/
def writeAt {α : Type} (v : List α) (i : Int) (x : α) : Option (List α) :=
  if 0 ≤ i ∧ i.toNat < v.length then some (v.set i.toNat x) else none

/-- Reference model of `std::sort(first, last)` on integers: the ascending rearrangement of the
range (insertion sort; on a total order the ascending rearrangement is unique). -/
def stdSort (v : List Int) : List Int :=
  v.insertionSort (· ≤ ·)

/-! ## compare_plot.cpp: the algorithms -/

/-- Sequential scan with early exit: `for (int x : arr) if (x == target) return true;`. -/
def linearSearch : List Int → Int → Bool
  | [], _ => false
  | x :: rest, target => if x == target then true else linearSearch rest target

/-- Library sort of the whole vector: `sort(arr.begin(), arr.end())`. -/
def sortArray (arr : List Int) : List Int :=
  stdSort arr

/-- Exchange of two slots: `swap(arr[i], arr[j])`. -/
def swapAt (arr : List Int) (i j : Int) : Option (List Int) := do
  let a ← readAt arr i
  let b ← readAt arr j
  let arr ← writeAt arr i b
  writeAt arr j a

/-- Body of the inner loop of `bubbleSort`: `if (arr[j] > arr[j + 1]) swap(arr[j], arr[j + 1])`. -/
def bubbleStep (j : Int) (arr : List Int) : Option (List Int) := do
  let a ← readAt arr j
  let b ← readAt arr (j + 1)
  if a > b then swapAt arr j (j + 1) else some arr

/-- Inner loop of `bubbleSort`: `for (int j = 0; j < n - i - 1; j++)`. -/
def bubblePass (n i : Int) (arr : List Int) : Option (List Int) :=
  forUpTo (n - i - 1) bubbleStep arr

/-- Bubble sort: `int n = arr.size(); for (int i = 0; i < n - 1; i++) <inner loop>`. -/
def bubbleSort (arr : List Int) : Option (List Int) :=
  let n : Int := arr.length
  forUpTo (n - 1) (bubblePass n) arr

/-- One value of `uniform_int_distribution<>(1, 100000)`: some integer of the closed range,
picked by the raw draw. -/
def uniformInt (raw : Nat) : Int :=
  1 + ((raw % 100000 : Nat) : Int)

/-- Random array: `vector<int> arr(n)` filled with one draw per slot.  The vector constructor
throws for a negative `n`. -/
def generateArray (n : Int) (draws : Nat → Nat) : Option (List Int) :=
  if n < 0 then none
  else forUpTo n (fun i arr => writeAt arr i (uniformInt (draws i.toNat)))
    (List.replicate n.toNat 0)

/-! ## compare_plot.cpp: the driver -/

/-- The outside world of one run of the search/sort program. -/
structure World where
  /-- Value `j` of the `k`-th freshly seeded random source. -/
  entropy : Nat → Nat → Nat
  /-- Elapsed milliseconds reported by the `k`-th timing. -/
  clock : Nat → Int
  /-- Exit status of `system("gnuplot ...")`. -/
  gnuplot : Int

/-- One item sent to `cout`. -/
inductive Tok where
  | text (s : String)
  | int (v : Int)
  | real (q : ℚ)
  | endl
  deriving DecidableEq, Repr

/-- One call of an algorithm made by `main`, with what the call did: the value returned by
`linearSearch`, and for the two sorts the content `out` of the vector when the call returns. -/
inductive Call where
  | linearSearch (arr : List Int) (target : Int) (found : Bool)
  | sortArray (arr out : List Int)
  | bubbleSort (arr out : List Int)
  deriving DecidableEq, Repr

/-- The variables of `main` while the measurement loop runs. -/
structure Run where
  /-- Items written to `cout` so far. -/
  console : List Tok
  /-- Sizes measured so far. -/
  measured_sizes : List Int
  /-- Linear search times. -/
  linear_times : List Int
  /-- Library sort times. -/
  sort_times : List Int
  /-- Bubble sort times. -/
  bubble_times : List Int
  /-- Number of random sources opened so far. -/
  seeds : Nat
  /-- Number of timings taken so far. -/
  ticks : Nat
  /-- Trace of the run: the calls of the algorithms made so far, in the order in which they were
  made, each with the number of the loop iteration that made it. -/
  trace : List (Nat × Call)

/-- Size schedule: `all_sizes = small_sizes`, then every value of `large_sizes` not yet found in
`all_sizes` is appended, then the vector is sorted. -/
def mergeSizes (small_sizes large_sizes : List Int) : List Int :=
  stdSort (large_sizes.foldl (fun all n => if n ∈ all then all else all ++ [n]) small_sizes)

/-- Schedule literal for bubble sort. -/
def small_sizes : List Int := [1000, 2000, 3000, 5000, 7000, 10000, 15000]

/-- Schedule literal for the fast algorithms. -/
def large_sizes : List Int := [10000, 20000, 30000, 50000, 70000, 100000, 150000]

/-- Schedule of the search/sort program. -/
def all_sizes : List Int := mergeSizes small_sizes large_sizes

/-- State of `main` when the measurement loop starts: the three header lines are printed. -/
def Run.start : Run where
  console := [Tok.text "Running algorithm comparisons...", Tok.endl,
    Tok.text "Size\tLinear\tSort\tBubble", Tok.endl,
    Tok.text "----\t------\t----\t------", Tok.endl]
  measured_sizes := []
  linear_times := []
  sort_times := []
  bubble_times := []
  seeds := 0
  ticks := 0
  trace := []

/-- The state once a call has been made: the call is the next entry of the trace, with the number
of the current iteration (the number of measurements stored so far). -/
def Run.enter (r : Run) (c : Call) : Run :=
  { r with trace := r.trace ++ [(r.measured_sizes.length, c)] }

/-- The call `linearSearch(arr, target)` made by `main`: the search is run and the call enters
the trace with the value it returned. -/
def callLinearSearch (arr : List Int) (target : Int) (r : Run) : Option Run :=
  some (r.enter (Call.linearSearch arr target (linearSearch arr target)))

/-- The call `sortArray(temp)` made by `main` on a copy `temp` of `arr`: the sort is run and the
call enters the trace with the sorted copy. -/
def callSortArray (arr : List Int) (r : Run) : Option Run :=
  some (r.enter (Call.sortArray arr (sortArray arr)))

/-- The call `bubbleSort(temp)` made by `main` on a copy `temp` of `arr`: the sort is run (a run
that leaves the bounds of the vector has no state after it) and the call enters the trace with
the copy as the sort left it. -/
def callBubbleSort (arr : List Int) (r : Run) : Option Run :=
  (bubbleSort arr).map (fun out => r.enter (Call.bubbleSort arr out))

/-- Timing `timeFunction(f)`: `f` is run between two readings of the clock and the elapsed
milliseconds are returned; the `k`-th timing of a run returns `w.clock k`. -/
def timeFunction (w : World) (f : Run → Option Run) (r : Run) : Option (Int × Run) := do
  let r ← f r
  some (w.clock r.ticks, { r with ticks := r.ticks + 1 })

/-- Body of the measurement loop for the schedule entry `n`: the input is generated; 1000
searches for `-1` are timed; a library sort of a copy is timed; at or below the ceiling, and only
there, a bubble sort of a copy is timed, and above it the bubble time stays 0; the line is
printed and the four values are stored. -/
def measureOne (w : World) (r : Run) (n : Int) : Option Run := do
  let arr ← generateArray n (w.entropy r.seeds)
  let r := { r with seeds := r.seeds + 1 }
  let (time_linear, r) ←
    timeFunction w (forUpTo 1000 (fun _ r => callLinearSearch arr (-1) r)) r
  let (time_sort, r) ← timeFunction w (callSortArray arr) r
  let (time_bubble, r) ←
    if n ≤ 15000 then timeFunction w (callBubbleSort arr) r else some (0, r)
  some { r with
    console := r.console ++ [Tok.int n, Tok.text "\t", Tok.int time_linear, Tok.text "\t",
      Tok.int time_sort, Tok.text "\t", Tok.int time_bubble, Tok.endl]
    measured_sizes := r.measured_sizes ++ [n]
    linear_times := r.linear_times ++ [time_linear]
    sort_times := r.sort_times ++ [time_sort]
    bubble_times := r.bubble_times ++ [time_bubble] }

/-- Measurement loop: `for (int n : all_sizes) <body>`. -/
def measureAll (w : World) (sizes : List Int) : Option Run :=
  sizes.foldlM (measureOne w) Run.start

/-- Rows of `algorithm_data.txt`: for every index of `measured_sizes`, the four values at that
index. -/
def dataRows (r : Run) : Option (List (List Int)) :=
  forUpTo r.measured_sizes.length (fun i rows => do
    let n ← readAt r.measured_sizes i
    let tl ← readAt r.linear_times i
    let ts ← readAt r.sort_times i
    let tb ← readAt r.bubble_times i
    some (rows ++ [[n, tl, ts, tb]])) []

/-- Text of one row: the values separated by single spaces, then a newline. -/
def renderRow (row : List Int) : String :=
  " ".intercalate (row.map toString) ++ "\n"

/-- Text of `algorithm_data.txt`. -/
def dataText (rows : List (List Int)) : String :=
  String.join (rows.map renderRow)

/-- Quotient of two `double`s; a quotient by zero has no exact value. -/
def fdiv (a b : ℚ) : Option ℚ :=
  if b = 0 then none else some (a / b)

/-- Rule of 60 copies of a character: `string(60, c)`. -/
def rule (c : Char) : String :=
  String.mk (List.replicate 60 c)

/-- Report on the sizes at `i - 1` and `i`, printed when both bubble times are positive. -/
def pairReport (n1 n2 t1 t2 : Int) : Option (List Tok) := do
  let ratio ← fdiv (n2 : ℚ) (n1 : ℚ)
  let time_ratio ← fdiv (t2 : ℚ) (t1 : ℚ)
  some [Tok.text "n: ", Tok.int n1, Tok.text " -> ", Tok.int n2, Tok.text " (", Tok.real ratio,
    Tok.text "x)", Tok.endl,
    Tok.text "  Time: ", Tok.int t1, Tok.text "ms -> ", Tok.int t2, Tok.text "ms (",
    Tok.real time_ratio, Tok.text "x slower)", Tok.endl,
    Tok.text "  Expected O(n²): ", Tok.real ( ratio * ratio), Tok.text "x", Tok.endl,
    Tok.endl]

/-- The loop `for (size_t i = 1; i < measured_sizes.size() && measured_sizes[i] <= 15000; i++)`;
the first argument is the loop variant `measured_sizes.size() - i`. -/
def pairLoop (r : Run) : Nat → Int → List Tok → Option (List Tok)
  | 0, _, out => some out
  | left + 1, i, out => do
    let n2 ← readAt r.measured_sizes i
    if n2 ≤ 15000 then
      -- `bubble_times[i-1] > 0 && bubble_times[i] > 0`, the second test only after the first
      let t1 ← readAt r.bubble_times (i - 1)
      if t1 > 0 then
        let t2 ← readAt r.bubble_times i
        if t2 > 0 then
          let n1 ← readAt r.measured_sizes (i - 1)
          let lines ← pairReport n1 n2 t1 t2
          pairLoop r left (i + 1) (out ++ lines)
        else pairLoop r left (i + 1) out
      else pairLoop r left (i + 1) out
    else some out

/-- Heading of the analysis and of its first part. -/
def analysisHeading : List Tok :=
  [Tok.text "\n", Tok.text (rule '='), Tok.endl,
    Tok.text "ANALYSIS: Why Asymptotic Notation Matters", Tok.endl,
    Tok.text (rule '='), Tok.endl,
    Tok.text "\n1. BUBBLE SORT (O(n²)) - Gets Slow Fast:", Tok.endl,
    Tok.text (rule '-'), Tok.endl]

/-- Second part of the analysis, from the last linear search time `tl`, the last sort time `ts`
and the bubble time `tb` at index 6. -/
def finalComparison (tl ts tb : Int) : List Tok :=
  [Tok.text "\n2. FINAL COMPARISON at n=100,000:", Tok.endl,
    Tok.text (rule '-'), Tok.endl,
    Tok.text "Linear Search O(n):     ", Tok.int tl, Tok.text " ms", Tok.endl,
    Tok.text "Sort O(n log n):        ", Tok.int ts, Tok.text " ms", Tok.endl,
    Tok.text "Bubble Sort O(n²):      Would take ~", Tok.int (tb * 100),
    Tok.text " ms (extrapolated!)", Tok.endl,
    Tok.text "\nNotice: Even though all start near 0ms, they diverge dramatically!", Tok.endl]

/-- Growth-rate analysis printed by `main`: the heading, the report on consecutive sizes and
the final comparison, which reads `linear_times[last]`, `sort_times[last]` and
`bubble_times[6]`. -/
def analysis (r : Run) : Option (List Tok) := do
  let pairs ← pairLoop r (r.measured_sizes.length - 1) 1 []
  let last : Int := (r.measured_sizes.length : Int) - 1
  let tl ← readAt r.linear_times last
  let ts ← readAt r.sort_times last
  let tb ← readAt r.bubble_times 6
  some (analysisHeading ++ pairs ++ finalComparison tl ts tb)

/-- What a run of the search/sort program leaves behind. -/
structure Outcome where
  /-- Everything written to `cout`. -/
  console : List Tok
  /-- Rows of `algorithm_data.txt`. -/
  data : List (List Int)
  /-- Value returned by `main`. -/
  exitCode : Int

/-- The search/sort program on a given pair of schedule literals.  The text of the plotting
script is fixed and is left out. -/
def mainWith (small large : List Int) (w : World) : Option Outcome := do
  let r ← measureAll w (mergeSizes small large)
  let rows ← dataRows r
  let console := r.console ++ [Tok.text "\nGenerating plot...", Tok.endl]
  if w.gnuplot = 0 then
    let report ← analysis r
    some { console := console ++ [Tok.text "Plot saved to: algorithm_comparison_plot.png",
             Tok.endl] ++ report,
           data := rows, exitCode := 0 }
  else
    some { console := console ++ [Tok.text "Error generating plot", Tok.endl],
           data := rows, exitCode := 0 }

/-- The search/sort program. -/
def main (w : World) : Option Outcome :=
  mainWith small_sizes large_sizes w

/-! ## matrix_plot.cpp -/

/-- The arithmetic of the matrix entries: the value `0.0` and the two operations the product
uses.  In the program the entries are `double`s and this is the arithmetic of `double`. -/
structure Arith (α : Type) where
  /-- The value `0.0`. -/
  zero : α
  /-- The operation `+`. -/
  add : α → α → α
  /-- The operation `*`. -/
  mul : α → α → α

/-- Entry `M[i][j]` read with both subscripts checked. -/
def readAt2 {α : Type} (M : List (List α)) (i j : Int) : Option α :=
  (readAt M i).bind (fun row => readAt row j)

/-- Innermost statement of the product: `C[i][j] += A[i][k] * B[k][j]`, one multiplication
followed by one addition. -/
def accumulate {α : Type} (R : Arith α) (A B : List (List α)) (i j k : Int)
    (C : List (List α)) : Option (List (List α)) := do
  let a ← readAt2 A i k
  let b ← readAt2 B k j
  let row ← readAt C i
  let c ← readAt row j
  let row ← writeAt row j (R.add c (R.mul a b))
  writeAt C i row

/-- Naive matrix product, in the arithmetic `R` of its entries: `n = A.size()`, `C` is `n` rows
of `n` zeros, then the three nested loops over `i`, `j`, `k`. -/
def multiplyMatricesIn {α : Type} (R : Arith α) (A B : List (List α)) :
    Option (List (List α)) :=
  let n : Int := A.length
  let C := List.replicate n.toNat (List.replicate n.toNat R.zero)
  forUpTo n (fun i C => forUpTo n (fun j C => forUpTo n (accumulate R A B i j) C) C) C

/-- Exact arithmetic on rationals. -/
def exactArith : Arith ℚ where
  zero := 0
  add := fun a b => a + b
  mul := fun a b => a * b

/-- The matrix product over exact arithmetic. -/
def multiplyMatrices (A B : List (List ℚ)) : Option (List (List ℚ)) :=
  multiplyMatricesIn exactArith A B

/-- Nearest integer, a tie going to the even one. -/
def roundHalfEven (x : ℚ) : Int :=
  if x - ⌊x⌋ < 1 / 2 then ⌊x⌋
  else if 1 / 2 < x - ⌊x⌋ then ⌊x⌋ + 1
  else if ⌊x⌋ % 2 = 0 then ⌊x⌋ else ⌊x⌋ + 1

/-- Rounding of an exact result to a `double` (IEEE 754 binary64, round to nearest, ties to
even): 53 significant bits, exponents from -1022 (below it the subnormal values, spaced
`2 ^ (-1074)`), and no finite value from `2 ^ 1024` on; `none` is a result that is not finite. -/
def roundDouble (q : ℚ) : Option ℚ :=
  if q = 0 then some 0
  else
    let e : Int := max (Int.log 2 |q|) (-1022)
    let r : ℚ := (roundHalfEven (q / 2 ^ (e - 52)) : ℚ) * 2 ^ (e - 52)
    if |r| < 2 ^ (1024 : Int) then some r else none

/-- The arithmetic of `double`: a value is a finite `double`, given as the rational it stands
for, or `none`, a value that is not finite (an infinity or a NaN); the result of an operation is
the exact result rounded, and an operation on a value that is not finite gives a value that is
not finite.  The two zeros of the format are one value. -/
def binary64 : Arith (Option ℚ) where
  zero := some 0
  add := fun a b => a.bind (fun x => b.bind (fun y => roundDouble (x + y)))
  mul := fun a b => a.bind (fun x => b.bind (fun y => roundDouble (x * y)))

/-- One value of `uniform_real_distribution<>(0.0, 1.0)`: some value of `[0, 1)`, picked by the
raw draw. -/
def uniformReal (raw : ℚ) : ℚ :=
  Int.fract raw

/-- Random matrix: `n` rows of `n` entries, one draw per entry.  The vector constructor throws
for a negative `n`. -/
def generateMatrix (n : Int) (draws : Nat → Nat → ℚ) : Option (List (List ℚ)) :=
  if n < 0 then none
  else forUpTo n (fun i M =>
      forUpTo n (fun j M => do
        let row ← readAt M i
        let row ← writeAt row j (uniformReal (draws i.toNat j.toNat))
        writeAt M i row) M)
    (List.replicate n.toNat (List.replicate n.toNat (0 : ℚ)))

/-- The outside world of one run of the matrix program. -/
structure MatrixWorld where
  /-- Value `(i, j)` of the `k`-th freshly seeded random source. -/
  entropy : Nat → Nat → Nat → ℚ
  /-- Elapsed milliseconds reported for the `k`-th product. -/
  clock : Nat → Int

/-- Measurement loop of the matrix program: for every size two random matrices are multiplied
and the size and the elapsed time are appended to `measured_sizes` and `measured_times`. -/
def measureMatrices (w : MatrixWorld) (sizes : List Int) : Option (List Int × List Int) :=
  sizes.foldlM (fun (acc : List Int × List Int) n => do
    let k := acc.1.length
    let A ← generateMatrix n (w.entropy (2 * k))
    let B ← generateMatrix n (w.entropy (2 * k + 1))
    let _ ← multiplyMatrices A B
    some (acc.1 ++ [n], acc.2 ++ [w.clock k])) ([], [])

/-- Fit of the cubic model: the loop that adds `time / n³` and counts, for every measurement
with a positive time, then `c = (count > 0) ? sum_ratio / count : 1e-6`.  The state of the loop
is the pair `(sum_ratio, count)`. -/
def fitConstant (measured_sizes measured_times : List Int) : Option ℚ := do
  let ( sum_ratio, count) ← forUpTo measured_sizes.length (fun i (acc : ℚ × Int) => do
    let t ← readAt measured_times i
    if t > 0 then
      let n ← readAt measured_sizes i
      let q ← fdiv (t : ℚ) ((n : ℚ) * n * n)
      some (acc.1 + q, acc.2 + 1)
    else some acc) (0, 0)
  if count > 0 then fdiv sum_ratio (count : ℚ) else some (1 / 1000000)

/-- Schedule literal of the matrix program. -/
def sizes : List Int := [10, 20, 50, 100, 150, 200, 250, 300, 350, 400]

/-- Fitted constant `c` of a run of the matrix program on a given schedule. -/
def fittedConstant (sizes : List Int) (w : MatrixWorld) : Option ℚ := do
  let (measured_sizes, measured_times) ← measureMatrices w sizes
  fitConstant measured_sizes measured_times

/-! ## Vocabulary of the statements -/

/-- Shape of an `n x n` matrix: `n` rows of `n` entries. -/
def IsSquare {α : Type} (n : Nat) (M : List (List α)) : Prop :=
  M.length = n ∧ ∀ row ∈ M, row.length = n

instance {α : Type} (n : Nat) (M : List (List α)) : Decidable (IsSquare n M) := by
  unfold IsSquare
  infer_instance

/-- Entry `M[i][j]` of a matrix, and `d` outside it. -/
def entryOf {α : Type} (d : α) (M : List (List α)) (i j : Nat) : α :=
  (M[i]?.bind (fun row => row[j]?)).getD d

/-- Entry `M[i][j]` of a matrix of rationals, and `0` outside it. -/
def entry (M : List (List ℚ)) (i j : Nat) : ℚ :=
  entryOf 0 M i j

/-- The value the loop over `k` leaves in `C[i][j]` after `m` turns: from `0.0`, the products
`A[i][k] * B[k][j]` are added one after the other, for `k = 0, ..., m - 1` in this order, each
operation being an operation of the arithmetic `R`. -/
def accumulated {α : Type} (R : Arith α) (A B : List (List α)) (i j m : Nat) : α :=
  (List.range m).foldl
    (fun acc k => R.add acc (R.mul (entryOf R.zero A i k) (entryOf R.zero B k j))) R.zero

/-- The `2 x 2` identity matrix. -/
def identity2 : List (List ℚ) := [[1, 0], [0, 1]]

/-- The matrix `C` with `v` added to its entry `(i, j)`. -/
def bump {α : Type} (R : Arith α) (C : List (List α)) (i j : Nat) (v : α) : List (List α) :=
  C.set i ((C.getD i []).set j (R.add (entryOf R.zero C i j) v))

/-- Number of timings a run takes for the first `k` entries of a schedule: three for an entry at
or below the ceiling, two above it. -/
def ticksBefore (sizes : List Int) (k : Nat) : Nat :=
  ((sizes.take k).map (fun n => if n ≤ 15000 then 3 else 2)).sum

/-- The calls of one iteration of the measurement loop, for the entry `n` with the input `arr`:
1000 searches for `-1`, one library sort, and at or below the ceiling one bubble sort. -/
def callsFor (n : Int) (arr : List Int) : List Call :=
  List.replicate 1000 (Call.linearSearch arr (-1) (linearSearch arr (-1))) ++
    [Call.sortArray arr (sortArray arr)] ++
    (if n ≤ 15000 then [Call.bubbleSort arr (sortArray arr)] else [])

/-- The calls that iteration `k` of the measurement loop made, in order, as the trace has
them. -/
def callsOf (r : Run) (k : Nat) : List Call :=
  (r.trace.filter (fun e => e.1 == k)).map (fun e => e.2)

/-- What the measurement loop has recorded once it has run over `sizes`: entry `k` has its own
input and its own timings, in the order in which they were taken. -/
def Measured (w : World) (sizes : List Int) (r : Run) : Prop :=
  r.measured_sizes = sizes ∧ r.linear_times.length = sizes.length ∧
  r.sort_times.length = sizes.length ∧ r.bubble_times.length = sizes.length ∧
  (∀ e ∈ r.trace, e.1 < sizes.length) ∧ r.seeds = sizes.length ∧
  r.ticks = ticksBefore sizes sizes.length ∧
  ∀ k n, sizes[k]? = some n → ∃ arr, generateArray n (w.entropy k) = some arr ∧
    r.linear_times[k]? = some (w.clock (ticksBefore sizes k)) ∧
    r.sort_times[k]? = some (w.clock (ticksBefore sizes k + 1)) ∧
    r.bubble_times[k]? = some (if n ≤ 15000 then w.clock (ticksBefore sizes k + 2) else 0) ∧
    callsOf r k = callsFor n arr

/-- The shape of the data file: as many rows as schedule entries, the schedule ascending, and
row `k` made of the size of entry `k` and of the three times measured for it, which are the
values at index `k` of the four vectors of measurements. -/
def OneRowPerEntry (w : World) (sizes : List Int) (r : Run) (rows : List (List Int)) : Prop :=
  rows.length = sizes.length ∧ sizes.Sorted (· ≤ ·) ∧
  ∀ k n, sizes[k]? = some n →
    rows[k]? = some [n, w.clock (ticksBefore sizes k), w.clock (ticksBefore sizes k + 1),
      if n ≤ 15000 then w.clock (ticksBefore sizes k + 2) else 0] ∧
    rows[k]? = some [r.measured_sizes.getD k 0, r.linear_times.getD k 0,
      r.sort_times.getD k 0, r.bubble_times.getD k 0]

/-- Row `k` of the data file: the values at index `k` of the four vectors of measurements. -/
def rowAt (r : Run) (k : Nat) : List Int :=
  [r.measured_sizes.getD k 0, r.linear_times.getD k 0, r.sort_times.getD k 0,
    r.bubble_times.getD k 0]

/-- A world used to instantiate the statements: draw `j` of source `k` is `k + j`, the `k`-th
timing reports `k` milliseconds, and the plotting tool exits with status 0. -/
def sampleWorld : World where
  entropy := fun k j => k + j
  clock := fun k => (k : Int)
  gnuplot := 0

/-- Lines of the analysis for two consecutive sizes `n1`, `n2` with bubble times `t1`, `t2`: the
observed size ratio `n2 / n1`, the observed time ratio `t2 / t1`, and the squared size ratio
that quadratic growth predicts. -/
def pairLines (n1 n2 t1 t2 : Int) : List Tok :=
  [Tok.text "n: ", Tok.int n1, Tok.text " -> ", Tok.int n2, Tok.text " (",
    Tok.real ((n2 : ℚ) / (n1 : ℚ)), Tok.text "x)", Tok.endl,
    Tok.text "  Time: ", Tok.int t1, Tok.text "ms -> ", Tok.int t2, Tok.text "ms (",
    Tok.real ((t2 : ℚ) / (t1 : ℚ)), Tok.text "x slower)", Tok.endl,
    Tok.text "  Expected O(n²): ",
    Tok.real (((n2 : ℚ) / (n1 : ℚ)) * ((n2 : ℚ) / (n1 : ℚ))), Tok.text "x", Tok.endl,
    Tok.endl]

/-- Lines of the analysis for two consecutive sizes: present only when both bubble times are
positive. -/
def pairBlock (n1 n2 t1 t2 : Int) : List Tok :=
  if t1 > 0 ∧ t2 > 0 then pairLines n1 n2 t1 t2 else []

/-- A world in which the plotting tool fails with exit status 1. -/
def failingWorld : World where
  entropy := fun k j => k + j
  clock := fun k => (k : Int)
  gnuplot := 1

/-- The measurements that enter the mean: the pairs `(size, time)` whose time is not zero. -/
def nonzeroMeasurements (measured_sizes measured_times : List Int) : List (Int × Int) :=
  (measured_sizes.zip measured_times).filter (fun p => p.2 ≠ 0)

/-- Arithmetic mean of `time / n³` over a list of measurements. -/
def ratioMean (pts : List (Int × Int)) : ℚ :=
  (pts.map (fun p => (p.2 : ℚ) / (p.1 : ℚ) ^ 3)).sum / (pts.length : ℚ)

/-- The fitted constant `c` is the mean of `time / n³` over the measurements with a time that is
not zero, and the fallback `1e-6` when there is none; in particular when every time is zero. -/
def FitIsMean (measured_sizes measured_times : List Int) (c : Option ℚ) : Prop :=
  c = some (if nonzeroMeasurements measured_sizes measured_times = [] then 1 / 1000000
    else ratioMean (nonzeroMeasurements measured_sizes measured_times)) ∧
  ((∀ t ∈ measured_times, t = 0) → c = some (1 / 1000000))

/-- A world of the matrix program in which the `k`-th product takes `k` milliseconds. -/
def sampleMatrixWorld : MatrixWorld where
  entropy := fun k i j => ((k + i + 2 * j : Nat) : ℚ) / 7
  clock := fun k => (k : Int)

/-! # Theorems -/

/-! ## Counted loops and checked accesses -/

theorem forUpTo_natCast {σ : Type} (m : Nat) (body : Int → σ → Option σ) (init : σ) :
    forUpTo (m : Int) body init
      = (List.range m).foldlM (fun s (k : Nat) => body (k : Int) s) init := by
  simp [forUpTo]

theorem forUpTo_zero {σ : Type} (body : Int → σ → Option σ) (init : σ) :
    forUpTo ((0 : Nat) : Int) body init = some init := by
  simp [forUpTo]

theorem forUpTo_succ {σ : Type} (m : Nat) (body : Int → σ → Option σ) (init : σ) :
    forUpTo ((m + 1 : Nat) : Int) body init
      = (forUpTo (m : Int) body init).bind (body (m : Int)) := by
  rw [forUpTo_natCast, forUpTo_natCast, List.range_succ, List.foldlM_append]
  simp

theorem readAt_natCast {α : Type} (v : List α) (k : Nat) : readAt v (k : Int) = v[k]? := by
  simp [readAt]

theorem writeAt_natCast {α : Type} (v : List α) (k : Nat) (x : α) (h : k < v.length) :
    writeAt v (k : Int) x = some (v.set k x) := by
  unfold writeAt
  rw [if_pos]
  · simp
  · exact ⟨Int.natCast_nonneg k, by simpa using h⟩

/-! ## Linear search -/

theorem linearSearch_iff (arr : List Int) (t : Int) : linearSearch arr t = true ↔ t ∈ arr := by
  induction arr with
  | nil => simp [linearSearch]
  | cons x rest ih =>
    by_cases hx : x = t
    · simp [linearSearch, hx]
    · have hx2 : ¬ t = x := fun h => hx h.symm
      simp [linearSearch, hx, hx2, ih]

/-! ## The random array -/

theorem uniformInt_range (raw : Nat) : 1 ≤ uniformInt raw ∧ uniformInt raw ≤ 100000 := by
  unfold uniformInt
  have := Nat.mod_lt raw (show 100000 > 0 by decide)
  omega

theorem generateArray_fill (N : Nat) (draws : Nat → Nat) (m : Nat) (hm : m ≤ N) :
    forUpTo (m : Int) (fun i arr => writeAt arr i (uniformInt (draws i.toNat)))
        (List.replicate N (0 : Int))
      = some ((List.range m).map (fun i => uniformInt (draws i)) ++ List.replicate (N - m) 0) := by
  induction m with
  | zero => simp [forUpTo]
  | succ m ih =>
    rw [forUpTo_succ, ih (Nat.le_of_succ_le hm), Option.some_bind,
      writeAt_natCast _ _ _ (by simp; omega)]
    have hrep : List.replicate (N - m) (0 : Int) = 0 :: List.replicate (N - (m + 1)) 0 := by
      rw [show N - m = (N - (m + 1)) + 1 by omega, List.replicate_succ]
    rw [hrep, List.set_append_right _ _ (by simp)]
    simp [List.range_succ]

theorem generateArray_eq (n : Int) (draws : Nat → Nat) (hn : 0 ≤ n) :
    generateArray n draws = some ((List.range n.toNat).map (fun i => uniformInt (draws i))) := by
  unfold generateArray
  rw [if_neg (not_lt.mpr hn)]
  have hcast : n = ((n.toNat : Nat) : Int) := (Int.toNat_of_nonneg hn).symm
  have := generateArray_fill n.toNat draws n.toNat (Nat.le_refl _)
  rw [← hcast] at this
  simpa using this

theorem generateArray_range (n : Int) (draws : Nat → Nat) (arr : List Int)
    (h : generateArray n draws = some arr) : ∀ x ∈ arr, 1 ≤ x ∧ x ≤ 100000 := by
  by_cases hn : n < 0
  · simp [generateArray, hn] at h
  · rw [generateArray_eq n draws (not_lt.mp hn)] at h
    cases h
    intro x hx
    obtain ⟨i, _, rfl⟩ := List.mem_map.mp hx
    exact uniformInt_range _

/-! ## Bubble sort -/

/-- One step of a pass puts the smaller of two neighbours first. -/
theorem bubbleStep_split (pre : List Int) (x y : Int) (rest : List Int) :
    bubbleStep (pre.length : Int) (pre ++ x :: y :: rest)
      = some (pre ++ min x y :: max x y :: rest) := by
  have hnext : ((pre.length : Int) + 1) = ((pre.length + 1 : Nat) : Int) := by
    push_cast; rfl
  have h1 : readAt (pre ++ x :: y :: rest) (pre.length : Int) = some x := by
    rw [readAt_natCast, List.getElem?_append_right (Nat.le_refl _)]; simp
  have h2 : readAt (pre ++ x :: y :: rest) ((pre.length : Int) + 1) = some y := by
    rw [hnext, readAt_natCast, List.getElem?_append_right (Nat.le_succ _)]; simp
  unfold bubbleStep
  rw [h1, h2]
  simp only [Option.bind_eq_bind, Option.some_bind]
  by_cases hxy : x > y
  · rw [if_pos hxy]
    unfold swapAt
    rw [h1, h2]
    simp only [Option.bind_eq_bind, Option.some_bind]
    rw [min_eq_right (le_of_lt hxy), max_eq_left (le_of_lt hxy)]
    have hw : writeAt (pre ++ x :: y :: rest) (pre.length : Int) y
        = some (pre ++ y :: y :: rest) := by
      rw [writeAt_natCast _ _ _ (by simp)]
      simp [List.set_append]
    rw [hw, Option.some_bind, hnext, writeAt_natCast _ _ _ (by simp)]
    simp [List.set_append]
  · rw [if_neg hxy]
    have hle : x ≤ y := not_lt.mp hxy
    rw [min_eq_left hle, max_eq_right hle]

/-- Running the first `m` steps of a pass moves the largest of the first `m + 1` entries to
slot `m` and leaves the entries behind it untouched. -/
theorem forUpTo_bubbleStep (arr : List Int) (m : Nat) (hm : m < arr.length) :
    ∃ pre x, forUpTo (m : Int) bubbleStep arr = some (pre ++ x :: arr.drop (m + 1)) ∧
      pre.length = m ∧ (pre ++ [x]).Perm (arr.take (m + 1)) ∧ ∀ y ∈ pre, y ≤ x := by
  induction m with
  | zero =>
    obtain ⟨x, rest, rfl⟩ :=
      List.exists_cons_of_length_pos (Nat.lt_of_le_of_lt (Nat.zero_le _) hm)
    exact ⟨[], x, by simp [forUpTo], rfl, by simp, by simp⟩
  | succ m ih =>
    obtain ⟨pre, x, hrun, hlen, hperm, hmax⟩ := ih (Nat.lt_of_succ_lt hm)
    subst hlen
    have hdrop : arr.drop (pre.length + 1)
        = arr[pre.length + 1] :: arr.drop (pre.length + 1 + 1) := by
      simp
    refine ⟨pre ++ [min x arr[pre.length + 1]], max x arr[pre.length + 1], ?_, by simp, ?_, ?_⟩
    · rw [forUpTo_succ, hrun, hdrop, Option.some_bind, bubbleStep_split]
      simp
    · have htake : arr.take (pre.length + 1 + 1)
          = arr.take (pre.length + 1) ++ [arr[pre.length + 1]] := by
        rw [List.take_succ]; simp [List.getElem?_eq_getElem hm]
      rw [htake]
      by_cases hxy : x ≤ arr[pre.length + 1]
      · rw [min_eq_left hxy, max_eq_right hxy]
        exact hperm.append_right [arr[pre.length + 1]]
      · have hyx : arr[pre.length + 1] ≤ x := le_of_lt (not_le.mp hxy)
        rw [min_eq_right hyx, max_eq_left hyx]
        have h1 : (pre ++ [arr[pre.length + 1]] ++ [x]).Perm
            (pre ++ [x] ++ [arr[pre.length + 1]]) := by
          simp only [List.append_assoc]
          exact List.Perm.append_left pre (List.Perm.swap _ _ _)
        exact h1.trans (hperm.append_right [arr[pre.length + 1]])
    · intro y hy
      rcases List.mem_append.mp hy with hy | hy
      · exact le_trans (hmax y hy) (le_max_left _ _)
      · rw [List.mem_singleton.mp hy]
        exact min_le_max

/-- After `i` passes the array is a permutation of the input that ends in `i` settled entries:
they are in order and none of them is below an entry in front of them. -/
theorem forUpTo_bubblePass (arr : List Int) (i : Nat) (hi : i + 1 ≤ arr.length) :
    ∃ p s, forUpTo (i : Int) (bubblePass arr.length) arr = some (p ++ s) ∧
      s.length = i ∧ (p ++ s).Perm arr ∧ s.Sorted (· ≤ ·) ∧
      ∀ a ∈ p, ∀ b ∈ s, a ≤ b := by
  induction i with
  | zero => exact ⟨arr, [], by simp [forUpTo], rfl, by simp, by simp, by simp⟩
  | succ i ih =>
    obtain ⟨p, s, hrun, hlen, hperm, hsorted, hle⟩ := ih (Nat.le_of_succ_le hi)
    have hplen : p.length = arr.length - i := by
      have := hperm.length_eq
      simp at this; omega
    have hbound : ((arr.length : Int) - (i : Int) - 1) = ((p.length - 1 : Nat) : Int) := by
      omega
    have hlt : p.length - 1 < (p ++ s).length := by simp; omega
    obtain ⟨pre, x, hpass, _, hpreperm, hmax⟩ :=
      forUpTo_bubbleStep (p ++ s) (p.length - 1) hlt
    have hidx : p.length - 1 + 1 = p.length := by omega
    rw [hidx] at hpass hpreperm
    simp only [List.drop_left, List.take_left] at hpass hpreperm
    refine ⟨pre, x :: s, ?_, by simp [hlen], ?_, ?_, ?_⟩
    · rw [forUpTo_succ, hrun, Option.some_bind]
      unfold bubblePass
      rw [hbound, hpass]
    · have hstep : (pre ++ x :: s).Perm (p ++ s) := by
        simpa using hpreperm.append_right s
      exact hstep.trans hperm
    · refine List.sorted_cons.mpr ⟨fun b hb => ?_, hsorted⟩
      exact hle x (hpreperm.subset (by simp)) b hb
    · intro a ha b hb
      rcases List.mem_cons.mp hb with hb | hb
      · rw [hb]; exact hmax a ha
      · exact hle a (hpreperm.subset (by simp [ha])) b hb

/-- Bubble sort returns, and what it returns is an ascending rearrangement of its input. -/
theorem bubbleSort_spec (arr : List Int) :
    ∃ out, bubbleSort arr = some out ∧ out.Sorted (· ≤ ·) ∧ out.Perm arr := by
  unfold bubbleSort
  rcases Nat.eq_zero_or_pos arr.length with h0 | hpos
  · have hnil : arr = [] := List.length_eq_zero.mp h0
    subst hnil
    exact ⟨[], by decide, by simp, by simp⟩
  · have hn : ((arr.length : Int) - 1) = ((arr.length - 1 : Nat) : Int) := by omega
    obtain ⟨p, s, hrun, hlen, hperm, hsorted, hle⟩ :=
      forUpTo_bubblePass arr (arr.length - 1) (by omega)
    refine ⟨p ++ s, ?_, ?_, hperm⟩
    · simp only []
      rw [hn, hrun]
    · have hp : p.length = 1 := by
        have := hperm.length_eq
        simp at this; omega
      obtain ⟨a, rfl⟩ := List.length_eq_one.mp hp
      exact List.sorted_cons.mpr ⟨fun b hb => hle a (by simp) b hb, hsorted⟩

/-- On the empty vector neither loop runs. -/
theorem bubbleSort_nil : bubbleSort [] = some [] := by
  decide

/-- On a one-element vector neither loop runs. -/
theorem bubbleSort_singleton (x : Int) : bubbleSort [x] = some [x] := by
  simp [bubbleSort, forUpTo]

/-- The library sort returns an ascending rearrangement of its input. -/
theorem stdSort_spec (v : List Int) : (stdSort v).Sorted (· ≤ ·) ∧ (stdSort v).Perm v :=
  ⟨List.sorted_insertionSort (· ≤ ·) v, List.perm_insertionSort (· ≤ ·) v⟩

/-- Two ascending rearrangements of one list are the same list. -/
theorem sorted_perm_unique (a b v : List Int) (ha : a.Sorted (· ≤ ·))
    (hb : b.Sorted (· ≤ ·)) (hpa : a.Perm v) (hpb : b.Perm v) : a = b :=
  List.eq_of_perm_of_sorted (hpa.trans hpb.symm) ha hb

theorem bubbleSort_eq_stdSort (arr : List Int) : bubbleSort arr = some (stdSort arr) := by
  obtain ⟨out, hrun, hsorted, hperm⟩ := bubbleSort_spec arr
  rw [hrun, sorted_perm_unique out (stdSort arr) arr hsorted (stdSort_spec arr).1 hperm
    (stdSort_spec arr).2]

/-! ## Claims on the algorithms of the search/sort program -/

/-- Claim C1: for every vector `arr`, the empty and the one-element vectors included,
`bubbleSort` returns without a subscript outside the vector (the result is `some out`, never
`none`), `out` is non-decreasing, and `out` is a permutation of `arr`: every value occurs in
`out` as often as in `arr`. -/
theorem bubbleSort_sorted_permutation (arr : List Int) :
    ∃ out, bubbleSort arr = some out ∧ out.Sorted (· ≤ ·) ∧ out.Perm arr ∧
      ∀ x, out.count x = arr.count x := by
  obtain ⟨out, hrun, hsorted, hperm⟩ := bubbleSort_spec arr
  exact ⟨out, hrun, hsorted, hperm, fun x => hperm.count_eq x⟩

/-- Claim C2: for every vector `arr`, `bubbleSort` on a copy of `arr` and `sortArray` on a copy
of `arr` end with the same sequence, element for element. -/
theorem bubbleSort_eq_sortArray (arr : List Int) : bubbleSort arr = some (sortArray arr) :=
  bubbleSort_eq_stdSort arr

/-- Claim C3: `linearSearch arr t` is true exactly when `t` occurs in `arr`; on an array whose
values all lie in `[1, 100000]`, and so on every array made by `generateArray`, the search for
the sentinel `-1` returns false. -/
theorem linearSearch_found_iff (arr : List Int) (t : Int) :
    (linearSearch arr t = true ↔ t ∈ arr) ∧
    ((∀ x ∈ arr, 1 ≤ x ∧ x ≤ 100000) → linearSearch arr (-1) = false) ∧
    (∀ n draws, generateArray n draws = some arr → linearSearch arr (-1) = false) := by
  have hdomain : (∀ x ∈ arr, 1 ≤ x ∧ x ≤ 100000) → linearSearch arr (-1) = false := by
    intro h
    cases hfound : linearSearch arr (-1) with
    | false => rfl
    | true =>
      have := (h (-1) ((linearSearch_iff arr (-1)).mp hfound)).1
      omega
  exact ⟨linearSearch_iff arr t, hdomain,
    fun n draws h => hdomain (generateArray_range n draws arr h)⟩

/-- Witness of C3 on the array `[1, 100000, 7]`. -/
theorem linearSearch_found_iff_witness :
    (∀ x ∈ [1, 100000, 7], (1 : Int) ≤ x ∧ x ≤ 100000) ∧
    (linearSearch [1, 100000, 7] 7 = true ↔ (7 : Int) ∈ [1, 100000, 7]) ∧
    linearSearch [1, 100000, 7] (-1) = false :=
  ⟨by decide, (linearSearch_found_iff [1, 100000, 7] 7).1,
    (linearSearch_found_iff [1, 100000, 7] 7).2.1 (by decide)⟩

/-- Claim C6: the schedule `all_sizes` of the search/sort program has no duplicate, is strictly
ascending, and holds exactly the values of `small_sizes` and `large_sizes`, each once; the
shared value 10000 occurs once. -/
theorem all_sizes_strictly_ascending :
    all_sizes.Nodup ∧ all_sizes.Sorted (· < ·) ∧
    (∀ n, n ∈ all_sizes ↔ n ∈ small_sizes ∨ n ∈ large_sizes) ∧
    (∀ n ∈ all_sizes, all_sizes.count n = 1) ∧ all_sizes.count 10000 = 1 ∧
    all_sizes = [1000, 2000, 3000, 5000, 7000, 10000, 15000, 20000, 30000, 50000, 70000,
      100000, 150000] := by
  have hlist : all_sizes = [1000, 2000, 3000, 5000, 7000, 10000, 15000, 20000, 30000, 50000,
      70000, 100000, 150000] := by decide
  refine ⟨?_, ?_, ?_, ?_, ?_, hlist⟩
  · rw [hlist]; decide
  · rw [hlist]; decide
  · intro n
    rw [hlist]
    simp only [small_sizes, large_sizes, List.mem_cons, List.mem_singleton, List.not_mem_nil]
    tauto
  · rw [hlist]; decide
  · rw [hlist]; decide

/-! ## The matrix product -/

theorem IsSquare.row_length {α : Type} {n : Nat} {M : List (List α)} (h : IsSquare n M)
    (i : Nat) (hi : i < n) : ∃ row, M[i]? = some row ∧ row.length = n := by
  have hlt : i < M.length := by rw [h.1]; exact hi
  exact ⟨M[i], List.getElem?_eq_getElem hlt, h.2 _ (List.getElem_mem hlt)⟩

theorem readAt2_eq {α : Type} {n : Nat} {M : List (List α)} (h : IsSquare n M) (d : α)
    (i j : Nat) (hi : i < n) (hj : j < n) :
    readAt2 M (i : Int) (j : Int) = some (entryOf d M i j) := by
  obtain ⟨row, hrow, hlen⟩ := h.row_length i hi
  have hj2 : j < row.length := by rw [hlen]; exact hj
  simp [readAt2, entryOf, readAt_natCast, hrow, List.getElem?_eq_getElem hj2]

theorem accumulate_eq {α : Type} (R : Arith α) {n : Nat} {A B C : List (List α)}
    (hA : IsSquare n A) (hB : IsSquare n B) (hC : IsSquare n C) (i j k : Nat) (hi : i < n)
    (hj : j < n) (hk : k < n) :
    accumulate R A B (i : Int) (j : Int) (k : Int) C
      = some (bump R C i j (R.mul (entryOf R.zero A i k) (entryOf R.zero B k j))) := by
  obtain ⟨row, hrow, hlen⟩ := hC.row_length i hi
  have hj2 : j < row.length := by rw [hlen]; exact hj
  have hi2 : i < C.length := by rw [hC.1]; exact hi
  unfold accumulate
  rw [readAt2_eq hA R.zero i k hi hk, readAt2_eq hB R.zero k j hk hj, readAt_natCast, hrow]
  simp only [Option.bind_eq_bind, Option.some_bind]
  rw [readAt_natCast, List.getElem?_eq_getElem hj2]
  simp only [Option.some_bind]
  rw [writeAt_natCast _ _ _ hj2, Option.some_bind, writeAt_natCast _ _ _ hi2]
  simp [bump, entryOf, hrow, List.getD_eq_getElem?_getD, List.getElem?_eq_getElem hj2]

theorem bump_square {α : Type} (R : Arith α) {n : Nat} {C : List (List α)}
    (hC : IsSquare n C) (i j : Nat) (v : α) (hi : i < n) : IsSquare n (bump R C i j v) := by
  refine ⟨by simp [bump, hC.1], ?_⟩
  intro row hrow
  unfold bump at hrow
  rcases List.mem_or_eq_of_mem_set hrow with h | h
  · exact hC.2 row h
  · rw [h, List.length_set, List.getD_eq_getElem?_getD]
    obtain ⟨r, hr, hlen⟩ := hC.row_length i hi
    simp [hr, hlen]

theorem entry_bump {α : Type} (R : Arith α) {n : Nat} {C : List (List α)}
    (hC : IsSquare n C) (i j : Nat) (v : α) (hi : i < n) (hj : j < n) (a b : Nat) :
    entryOf R.zero (bump R C i j v) a b
      = if a = i ∧ b = j then R.add (entryOf R.zero C i j) v else entryOf R.zero C a b := by
  obtain ⟨row, hrow, hlen⟩ := hC.row_length i hi
  have hj2 : j < row.length := by rw [hlen]; exact hj
  have hi2 : i < C.length := by rw [hC.1]; exact hi
  unfold bump
  by_cases ha : a = i
  · subst ha
    by_cases hb : b = j
    · subst hb
      simp [entryOf, List.getElem?_set, hi2, hrow, hj2, List.getD_eq_getElem?_getD]
    · have hb2 : ¬ j = b := fun h => hb h.symm
      simp [entryOf, List.getElem?_set, hi2, hrow, hb, hb2, List.getD_eq_getElem?_getD]
  · have ha2 : ¬ i = a := fun h => ha h.symm
    simp [entryOf, List.getElem?_set, ha, ha2]

/-- The loop over `k` adds the first `m` products, one after the other, to the entry `(i, j)`
and changes nothing else. -/
theorem forUpTo_accumulate {α : Type} (R : Arith α) {n : Nat} {A B C : List (List α)}
    (hA : IsSquare n A) (hB : IsSquare n B) (hC : IsSquare n C) (i j : Nat) (hi : i < n)
    (hj : j < n) (m : Nat) (hm : m ≤ n) :
    ∃ D, forUpTo (m : Int) (accumulate R A B (i : Int) (j : Int)) C = some D ∧
      IsSquare n D ∧
      ∀ a b, entryOf R.zero D a b = if a = i ∧ b = j
        then (List.range m).foldl
          (fun acc k => R.add acc (R.mul (entryOf R.zero A i k) (entryOf R.zero B k j)))
          (entryOf R.zero C i j)
        else entryOf R.zero C a b := by
  induction m with
  | zero =>
    exact ⟨C, forUpTo_zero _ _, hC, fun a b => by by_cases h : a = i ∧ b = j <;> simp [h]⟩
  | succ m ih =>
    obtain ⟨D, hrun, hD, hentry⟩ := ih (Nat.le_of_succ_le hm)
    refine ⟨bump R D i j (R.mul (entryOf R.zero A i m) (entryOf R.zero B m j)), ?_,
      bump_square R hD i j _ hi, ?_⟩
    · rw [forUpTo_succ, hrun, Option.some_bind, accumulate_eq R hA hB hD i j m hi hj hm]
    · intro a b
      rw [entry_bump R hD i j _ hi hj, hentry a b, hentry i j]
      by_cases h : a = i ∧ b = j
      · simp [h, List.range_succ]
      · simp [h]

/-- The loop over `j` fills the first `m` entries of row `i` and changes nothing else. -/
theorem forUpTo_row {α : Type} (R : Arith α) {n : Nat} {A B C : List (List α)}
    (hA : IsSquare n A) (hB : IsSquare n B) (hC : IsSquare n C) (i : Nat) (hi : i < n)
    (m : Nat) (hm : m ≤ n) :
    ∃ D, forUpTo (m : Int)
        (fun j C => forUpTo (n : Int) (accumulate R A B (i : Int) j) C) C = some D ∧
      IsSquare n D ∧
      ∀ a b, entryOf R.zero D a b = if a = i ∧ b < m
        then (List.range n).foldl
          (fun acc k => R.add acc (R.mul (entryOf R.zero A i k) (entryOf R.zero B k b)))
          (entryOf R.zero C i b)
        else entryOf R.zero C a b := by
  induction m with
  | zero => exact ⟨C, forUpTo_zero _ _, hC, fun a b => by simp⟩
  | succ m ih =>
    obtain ⟨D, hrun, hD, hentry⟩ := ih (Nat.le_of_succ_le hm)
    obtain ⟨E, hrunE, hE, hentryE⟩ :=
      forUpTo_accumulate R hA hB hD i m hi hm n (Nat.le_refl n)
    refine ⟨E, ?_, hE, ?_⟩
    · rw [forUpTo_succ, hrun, Option.some_bind, hrunE]
    · intro a b
      rw [hentryE a b, hentry a b, hentry i m]
      by_cases ha : a = i
      · subst ha
        rcases Nat.lt_trichotomy b m with hb | hb | hb
        · have h1 : ¬ b = m := by omega
          have h2 : b < m + 1 := by omega
          simp [h1, h2, hb]
        · subst hb
          simp
        · have h1 : ¬ b = m := by omega
          have h2 : ¬ b < m + 1 := by omega
          have h3 : ¬ b < m := by omega
          simp [h1, h2, h3]
      · simp [ha]

/-- The loop over `i` fills the first `m` rows and changes nothing else. -/
theorem forUpTo_rows {α : Type} (R : Arith α) {n : Nat} {A B C : List (List α)}
    (hA : IsSquare n A) (hB : IsSquare n B) (hC : IsSquare n C) (m : Nat) (hm : m ≤ n) :
    ∃ D, forUpTo (m : Int)
        (fun i C => forUpTo (n : Int)
          (fun j C => forUpTo (n : Int) (accumulate R A B i j) C) C) C = some D ∧
      IsSquare n D ∧
      ∀ a b, entryOf R.zero D a b = if a < m ∧ b < n
        then (List.range n).foldl
          (fun acc k => R.add acc (R.mul (entryOf R.zero A a k) (entryOf R.zero B k b)))
          (entryOf R.zero C a b)
        else entryOf R.zero C a b := by
  induction m with
  | zero => exact ⟨C, forUpTo_zero _ _, hC, fun a b => by simp⟩
  | succ m ih =>
    obtain ⟨D, hrun, hD, hentry⟩ := ih (Nat.le_of_succ_le hm)
    obtain ⟨E, hrunE, hE, hentryE⟩ := forUpTo_row R hA hB hD m hm n (Nat.le_refl n)
    refine ⟨E, ?_, hE, ?_⟩
    · rw [forUpTo_succ, hrun, Option.some_bind, hrunE]
    · intro a b
      rw [hentryE a b, hentry a b, hentry m b]
      rcases Nat.lt_trichotomy a m with ha | ha | ha
      · have h1 : ¬ a = m := by omega
        have h2 : a < m + 1 := by omega
        simp [h1, h2, ha]
      · subst ha
        simp
      · have h1 : ¬ a = m := by omega
        have h2 : ¬ a < m + 1 := by omega
        have h3 : ¬ a < m := by omega
        simp [h1, h2, h3]

theorem isSquare_zero {α : Type} (z : α) (n : Nat) :
    IsSquare n (List.replicate n (List.replicate n z)) := by
  refine ⟨by simp, ?_⟩
  intro row hrow
  rw [(List.mem_replicate.mp hrow).2]
  simp

theorem entry_zero {α : Type} (z : α) (n a b : Nat) :
    entryOf z (List.replicate n (List.replicate n z)) a b = z := by
  unfold entryOf
  rw [List.getElem?_replicate]
  by_cases ha : a < n
  · rw [if_pos ha, Option.some_bind, List.getElem?_replicate]
    by_cases hb : b < n <;> simp [hb]
  · simp [ha]

/-- A square matrix is the table of its entries. -/
theorem eq_table_of_entries {α : Type} (d : α) {n : Nat} {C : List (List α)}
    (hC : IsSquare n C) (f : Nat → Nat → α)
    (h : ∀ a b, a < n → b < n → entryOf d C a b = f a b) :
    C = (List.range n).map (fun a => (List.range n).map (fun b => f a b)) := by
  apply List.ext_getElem
  · simp [hC.1]
  · intro a h1 h2
    have ha : a < n := by rw [← hC.1]; exact h1
    have hrow : C[a].length = n := hC.2 _ (List.getElem_mem h1)
    apply List.ext_getElem
    · simp [hrow]
    · intro b h3 h4
      have hb : b < n := by rw [← hrow]; exact h3
      have := h a b ha hb
      simp only [entryOf, List.getElem?_eq_getElem h1, Option.some_bind,
        List.getElem?_eq_getElem h3, Option.getD_some] at this
      simp [this]

/-- In any arithmetic the product of two `n x n` matrices is made, it is `n x n`, and its entry
`(i, j)` is the value accumulated over `k = 0, ..., n - 1`. -/
theorem multiplyMatricesIn_spec {α : Type} (R : Arith α) {n : Nat} {A B : List (List α)}
    (hA : IsSquare n A) (hB : IsSquare n B) :
    ∃ C, multiplyMatricesIn R A B = some C ∧ IsSquare n C ∧
      (∀ i j, i < n → j < n → entryOf R.zero C i j = accumulated R A B i j n) ∧
      C = (List.range n).map (fun i => (List.range n).map (fun j => accumulated R A B i j n)) := by
  obtain ⟨D, hrun, hD, hentry⟩ :=
    forUpTo_rows R hA hB (isSquare_zero R.zero n) n (Nat.le_refl n)
  have hentries : ∀ i j, i < n → j < n → entryOf R.zero D i j = accumulated R A B i j n := by
    intro i j hi hj
    rw [hentry i j, entry_zero]
    simp [hi, hj, accumulated]
  refine ⟨D, ?_, hD, hentries, eq_table_of_entries R.zero hD _ hentries⟩
  unfold multiplyMatricesIn
  simp only [hA.1, Int.toNat_ofNat]
  exact hrun

/-- Over exact arithmetic the accumulated value is the sum of the products. -/
theorem accumulated_exact (A B : List (List ℚ)) (i j m : Nat) :
    accumulated exactArith A B i j m = ∑ k ∈ Finset.range m, entry A i k * entry B k j := by
  unfold accumulated
  induction m with
  | zero => simp [exactArith]
  | succ m ih =>
    rw [List.range_succ, List.foldl_append, ih, Finset.sum_range_succ]
    simp [exactArith, entry]

/-- Over exact arithmetic the product is the table of the sums of products. -/
theorem multiplyMatrices_eq {n : Nat} {A B : List (List ℚ)} (hA : IsSquare n A)
    (hB : IsSquare n B) :
    multiplyMatrices A B = some ((List.range n).map (fun i => (List.range n).map (fun j =>
      ∑ k ∈ Finset.range n, entry A i k * entry B k j))) := by
  obtain ⟨C, hrun, _, _, hC⟩ := multiplyMatricesIn_spec exactArith hA hB
  unfold multiplyMatrices
  rw [hrun, hC]
  simp only [accumulated_exact]

/-! ## The arithmetic of `double` -/

theorem intLog_two_eq (q : ℚ) (e : ℤ) (h1 : (2 : ℚ) ^ e ≤ q)
    (h2 : q < (2 : ℚ) ^ (e + 1)) :
    Int.log 2 q = e := by
  have hq : 0 < q := lt_of_lt_of_le (zpow_pos (by norm_num) e) h1
  have hle : e ≤ Int.log 2 q := by
    apply (Int.zpow_le_iff_le_log (by norm_num) hq).mp
    exact_mod_cast h1
  have hlt : Int.log 2 q < e + 1 := by
    apply (Int.lt_zpow_iff_log_lt (by norm_num) hq).mp
    exact_mod_cast h2
  omega

theorem roundHalfEven_intCast (m : ℤ) : roundHalfEven (m : ℚ) = m := by
  simp [roundHalfEven]

theorem roundDouble_zero : roundDouble 0 = some 0 := by
  simp [roundDouble]

theorem roundDouble_one : roundDouble 1 = some 1 := by
  have hlog : Int.log 2 |(1 : ℚ)| = 0 := by
    rw [abs_one]
    exact intLog_two_eq 1 0 (by norm_num) (by norm_num)
  have hq : (1 : ℚ) / 2 ^ ((0 : ℤ) - 52) = ((4503599627370496 : ℤ) : ℚ) := by
    norm_num [zpow_neg]
  unfold roundDouble
  rw [if_neg (by norm_num)]
  simp only [hlog]
  rw [show max (0 : ℤ) (-1022) = 0 by decide, hq, roundHalfEven_intCast]
  norm_num [zpow_neg]

/-- The value `1e16` is a `double`. -/
theorem roundDouble_1e16 : roundDouble 10000000000000000 = some 10000000000000000 := by
  have hlog : Int.log 2 |(10000000000000000 : ℚ)| = 53 := by
    rw [abs_of_pos (by norm_num)]
    exact intLog_two_eq _ 53 (by norm_num) (by norm_num)
  have hq : (10000000000000000 : ℚ) / 2 ^ ((53 : ℤ) - 52)
      = ((5000000000000000 : ℤ) : ℚ) := by
    norm_num
  unfold roundDouble
  rw [if_neg (by norm_num)]
  simp only [hlog]
  rw [show max (53 : ℤ) (-1022) = 53 by decide, hq, roundHalfEven_intCast]
  norm_num

/-- The value `1e16 + 1` lies half way between two `double`s and is rounded to `1e16`. -/
theorem roundDouble_1e16_add_one : roundDouble 10000000000000001 = some 10000000000000000 := by
  have hlog : Int.log 2 |(10000000000000001 : ℚ)| = 53 := by
    rw [abs_of_pos (by norm_num)]
    exact intLog_two_eq _ 53 (by norm_num) (by norm_num)
  have hfloor : ⌊(10000000000000001 : ℚ) / 2 ^ ((53 : ℤ) - 52)⌋ = 5000000000000000 := by
    rw [Int.floor_eq_iff]
    constructor <;> norm_num
  have hround : roundHalfEven ((10000000000000001 : ℚ) / 2 ^ ((53 : ℤ) - 52))
      = 5000000000000000 := by
    unfold roundHalfEven
    rw [hfloor]
    norm_num
  unfold roundDouble
  rw [if_neg (by norm_num)]
  simp only [hlog]
  rw [show max (53 : ℤ) (-1022) = 53 by decide, hround]
  norm_num

/-! ## Claims on the matrix product -/

theorem binary64_add (x y : ℚ) : binary64.add (some x) (some y) = roundDouble (x + y) := by
  simp only [binary64, Option.some_bind]

theorem binary64_mul (x y : ℚ) : binary64.mul (some x) (some y) = roundDouble (x * y) := by
  simp only [binary64, Option.some_bind]

theorem accumulated_two {α : Type} (R : Arith α) (A B : List (List α)) (i j : Nat) :
    accumulated R A B i j 2
      = R.add (R.add R.zero (R.mul (entryOf R.zero A i 0) (entryOf R.zero B 0 j)))
          (R.mul (entryOf R.zero A i 1) (entryOf R.zero B 1 j)) := by
  simp [accumulated, List.range_succ]

/-- The table of the values accumulated for two `2 x 2` matrices of `double`s. -/
theorem table_two (a b c d p q r s : Option ℚ) :
    (List.range 2).map (fun i => (List.range 2).map (fun j =>
      accumulated binary64 [[a, b], [c, d]] [[p, q], [r, s]] i j 2))
    = [[binary64.add (binary64.add (some 0) (binary64.mul a p)) (binary64.mul b r),
        binary64.add (binary64.add (some 0) (binary64.mul a q)) (binary64.mul b s)],
       [binary64.add (binary64.add (some 0) (binary64.mul c p)) (binary64.mul d r),
        binary64.add (binary64.add (some 0) (binary64.mul c q)) (binary64.mul d s)]] := by
  have hzero : binary64.zero = some 0 := rfl
  simp [accumulated_two, entryOf, List.range_succ, hzero]

/-- The product, in the arithmetic of `double`, of `[[1e16, 1], [0, 0]]` and
`[[1, 0], [1, 0]]`: the entry `(0, 0)` is `1e16`, the sum `1e16 + 1` being rounded. -/
theorem product_1e16 :
    multiplyMatricesIn binary64
        [[some 10000000000000000, some 1], [some 0, some 0]]
        [[some 1, some 0], [some 1, some 0]]
      = some [[some 10000000000000000, some 0], [some 0, some 0]] := by
  have hA : IsSquare 2 [[some (10000000000000000 : ℚ), some 1], [some 0, some 0]] := by
    simp [IsSquare]
  have hB : IsSquare 2 [[some (1 : ℚ), some 0], [some 1, some 0]] := by
    simp [IsSquare]
  obtain ⟨C, hrun, _, _, hC⟩ := multiplyMatricesIn_spec binary64 hA hB
  rw [hrun, hC, table_two]
  simp only [binary64_add, binary64_mul, mul_one, mul_zero, zero_mul, roundDouble_zero,
    roundDouble_one, roundDouble_1e16, zero_add, add_zero]
  rw [show (10000000000000000 + 1 : ℚ) = 10000000000000001 by norm_num,
    roundDouble_1e16_add_one]

/-- Claim C5, as stated, fails: on the matrices of `double`s `A = [[1e16, 1], [0, 0]]` and
`B = [[1, 0], [1, 0]]` the entry `C[0][0]` of the product is `1e16`, while the sum of
`A[0][k] * B[k][0]` over `k` is `1e16 + 1`, the entry of the product over exact arithmetic. -/
theorem product_entry_is_not_the_sum :
    multiplyMatricesIn binary64
        [[some 10000000000000000, some 1], [some 0, some 0]]
        [[some 1, some 0], [some 1, some 0]]
      = some [[some 10000000000000000, some 0], [some 0, some 0]] ∧
    multiplyMatrices [[10000000000000000, 1], [0, 0]] [[1, 0], [1, 0]]
      = some [[10000000000000001, 0], [0, 0]] ∧
    (10000000000000000 : ℚ) * 1 + 1 * 1 ≠ 10000000000000000 := by
  refine ⟨product_1e16, ?_, by norm_num⟩
  rw [multiplyMatrices_eq
    (show IsSquare 2 [[(10000000000000000 : ℚ), 1], [0, 0]] by simp [IsSquare])
    (show IsSquare 2 [[(1 : ℚ), 0], [1, 0]] by simp [IsSquare])]
  simp [entry, entryOf, List.range_succ, Finset.sum_range_succ]
  norm_num

/-- Claim C5, amended: for `n x n` matrices `A` and `B`, `n ≥ 0`, the product returns a matrix
`C` of `n` rows of `n` entries, `n` being the number of rows of `A`; `C` is completely filled:
its entry `(i, j)` is the value accumulated from `0.0` by adding the products
`A[i][k] * B[k][j]` for `k = 0, ..., n - 1` in this order, every operation being an operation of
the arithmetic of the entries (of `double` in the program); for `n = 0` it is the empty matrix.
Over exact arithmetic the accumulated value is the sum over `k < n` of `A[i][k] * B[k][j]`. -/
theorem multiplyMatrices_product {α : Type} (R : Arith α) (n : Nat) (A B : List (List α))
    (hA : IsSquare n A) (hB : IsSquare n B) :
    (∃ C, multiplyMatricesIn R A B = some C ∧ IsSquare n C ∧ C.length = A.length ∧
      (∀ i j, i < n → j < n → entryOf R.zero C i j = accumulated R A B i j n) ∧
      C = (List.range n).map (fun i => (List.range n).map (fun j =>
        accumulated R A B i j n)) ∧
      (n = 0 → C = [])) ∧
    (∀ P Q : List (List ℚ), IsSquare n P → IsSquare n Q →
      ∃ C, multiplyMatrices P Q = some C ∧ IsSquare n C ∧ C.length = P.length ∧
        (∀ i j, i < n → j < n →
          entry C i j = ∑ k ∈ Finset.range n, entry P i k * entry Q k j) ∧
        C = (List.range n).map (fun i => (List.range n).map (fun j =>
          ∑ k ∈ Finset.range n, entry P i k * entry Q k j)) ∧
        (n = 0 → C = [])) := by
  refine ⟨?_, ?_⟩
  · obtain ⟨C, hrun, hC, hentry, htable⟩ := multiplyMatricesIn_spec R hA hB
    refine ⟨C, hrun, hC, by rw [hC.1, hA.1], hentry, htable, ?_⟩
    intro h0
    exact List.length_eq_zero.mp (by rw [hC.1, h0])
  · intro P Q hP hQ
    obtain ⟨C, hrun, hC, hentry, htable⟩ := multiplyMatricesIn_spec exactArith hP hQ
    refine ⟨C, hrun, hC, by rw [hC.1, hP.1], ?_, ?_, ?_⟩
    · intro i j hi hj
      have := hentry i j hi hj
      rw [accumulated_exact] at this
      exact this
    · rw [htable]
      simp only [accumulated_exact]
    · intro h0
      exact List.length_eq_zero.mp (by rw [hC.1, h0])

/-- Witness of the amended C5 on the two matrices of `double`s of the counterexample: the entry
`(0, 0)` is the accumulated value `1e16`. -/
theorem multiplyMatrices_product_witness :
    IsSquare 2 [[some (10000000000000000 : ℚ), some 1], [some 0, some 0]] ∧
    IsSquare 2 [[some (1 : ℚ), some 0], [some 1, some 0]] ∧
    ∃ C, multiplyMatricesIn binary64
        [[some 10000000000000000, some 1], [some 0, some 0]]
        [[some 1, some 0], [some 1, some 0]] = some C ∧
      IsSquare 2 C ∧ entryOf (some 0) C 0 0 = some 10000000000000000 := by
  have hA : IsSquare 2 [[some (10000000000000000 : ℚ), some 1], [some 0, some 0]] := by
    simp [IsSquare]
  have hB : IsSquare 2 [[some (1 : ℚ), some 0], [some 1, some 0]] := by
    simp [IsSquare]
  obtain ⟨C, hrun, hC, _, _, _, _⟩ := (multiplyMatrices_product binary64 2 _ _ hA hB).1
  refine ⟨hA, hB, C, hrun, hC, ?_⟩
  have hval := product_1e16
  rw [hrun] at hval
  rw [Option.some.inj hval]
  simp [entryOf]

/-- Claim C4, as stated, fails: on the `2 x 3` matrix `M` below the product with the identity is
the `2 x 2` matrix of the first two columns of `M`, not `M`. -/
theorem identity_product_not_any_matrix :
    multiplyMatrices identity2 [[3, 4, 5], [5, 6, 7]] = some [[3, 4], [5, 6]] ∧
    multiplyMatrices identity2 [[3, 4, 5], [5, 6, 7]] ≠ some [[3, 4, 5], [5, 6, 7]] := by
  have hrun : multiplyMatrices identity2 [[3, 4, 5], [5, 6, 7]] = some [[3, 4], [5, 6]] := by
    simp [multiplyMatrices, multiplyMatricesIn, exactArith, forUpTo, accumulate, readAt2, readAt,
      writeAt, identity2,
      List.range_succ]
  refine ⟨hrun, ?_⟩
  rw [hrun]
  simp

/-- Claim C4, amended: for the `2 x 2` identity matrix and every `2 x 2` matrix `M`,
`multiplyMatrices identity2 M` is `M`, entry for entry. -/
theorem identity_product (M : List (List ℚ)) (hM : IsSquare 2 M) :
    multiplyMatrices identity2 M = some M := by
  have hI : IsSquare 2 identity2 := by decide
  rw [multiplyMatrices_eq hI hM]
  congr 1
  symm
  apply eq_table_of_entries (0 : ℚ) hM
  intro a b ha hb
  have hcases : a = 0 ∨ a = 1 := by omega
  rcases hcases with rfl | rfl <;> simp [Finset.sum_range_succ, entry, entryOf, identity2]

/-- Witness of the amended C4 on a `2 x 2` matrix. -/
theorem identity_product_witness :
    IsSquare 2 [[3, 4], [5, 6]] ∧
    multiplyMatrices identity2 [[3, 4], [5, 6]] = some [[3, 4], [5, 6]] :=
  ⟨by decide, identity_product [[3, 4], [5, 6]] (by decide)⟩

/-! ## The measurement loop -/

theorem forUpTo_callLinearSearch (arr : List Int) (t : Int) (r : Run) (m : Nat) :
    forUpTo (m : Int) (fun _ r => callLinearSearch arr t r) r
      = some { r with
          trace := r.trace ++ List.replicate m
            (r.measured_sizes.length, Call.linearSearch arr t (linearSearch arr t)) } := by
  induction m with
  | zero => simp [forUpTo]
  | succ m ih =>
    rw [forUpTo_succ, ih, Option.some_bind]
    simp only [callLinearSearch, Run.enter, List.append_assoc, List.replicate_succ']

theorem measureOne_eq (w : World) (r : Run) (n : Int) (hn : 0 ≤ n) :
    ∃ arr, generateArray n (w.entropy r.seeds) = some arr ∧
      measureOne w r n = some {
        console := r.console ++ [Tok.int n, Tok.text "\t", Tok.int (w.clock r.ticks),
          Tok.text "\t", Tok.int (w.clock (r.ticks + 1)), Tok.text "\t",
          Tok.int (if n ≤ 15000 then w.clock (r.ticks + 2) else 0), Tok.endl]
        measured_sizes := r.measured_sizes ++ [n]
        linear_times := r.linear_times ++ [w.clock r.ticks]
        sort_times := r.sort_times ++ [w.clock (r.ticks + 1)]
        bubble_times := r.bubble_times ++ [if n ≤ 15000 then w.clock (r.ticks + 2) else 0]
        seeds := r.seeds + 1
        ticks := r.ticks + (if n ≤ 15000 then 3 else 2)
        trace := r.trace ++ (callsFor n arr).map (fun c => (r.measured_sizes.length, c)) } := by
  refine ⟨_, generateArray_eq n _ hn, ?_⟩
  have hthousand : (1000 : Int) = ((1000 : Nat) : Int) := rfl
  unfold measureOne
  rw [generateArray_eq n _ hn]
  simp only [Option.bind_eq_bind, Option.some_bind, timeFunction, hthousand,
    forUpTo_callLinearSearch, callSortArray, Run.enter]
  by_cases hc : n ≤ 15000
  · simp only [hc, if_true, callBubbleSort, bubbleSort_eq_stdSort, Option.map_some',
      Option.some_bind, Run.enter, callsFor, sortArray, List.map_append, List.map_replicate,
      List.map_cons, List.map_nil, List.append_assoc]
  · simp only [hc, if_false, Option.some_bind, callsFor, List.map_append, List.map_replicate,
      List.map_cons, List.map_nil, List.append_assoc, List.append_nil]

theorem ticksBefore_append_of_le (sizes : List Int) (n : Int) (k : Nat)
    (hk : k ≤ sizes.length) : ticksBefore (sizes ++ [n]) k = ticksBefore sizes k := by
  unfold ticksBefore
  rw [List.take_append_of_le_length hk]

theorem ticksBefore_snoc (sizes : List Int) (n : Int) :
    ticksBefore (sizes ++ [n]) (sizes.length + 1)
      = ticksBefore sizes sizes.length + (if n ≤ 15000 then 3 else 2) := by
  unfold ticksBefore
  have h1 : (sizes ++ [n]).take (sizes.length + 1) = sizes ++ [n] := by
    apply List.take_of_length_le; simp
  rw [h1, List.take_length]
  simp

theorem segment_old (t : List (Nat × Call)) (len : Nat) (h : ∀ e ∈ t, e.1 < len) :
    t.filter (fun e => e.1 == len) = [] := by
  apply List.filter_eq_nil_iff.mpr
  intro e he
  have := h e he
  simp only [beq_iff_eq]
  omega

theorem segment_new_ne (cs : List Call) (len k : Nat) (h : k ≠ len) :
    (cs.map (fun c => (len, c))).filter (fun e => e.1 == k) = [] := by
  apply List.filter_eq_nil_iff.mpr
  intro e he
  obtain ⟨c, _, rfl⟩ := List.mem_map.mp he
  simp only [beq_iff_eq]
  omega

theorem segment_new_eq (cs : List Call) (len : Nat) :
    ((cs.map (fun c => (len, c))).filter (fun e => e.1 == len)).map (fun e => e.2) = cs := by
  induction cs with
  | nil => rfl
  | cons c cs ih =>
    rw [List.map_cons, List.filter_cons_of_pos (by simp), List.map_cons, ih]

theorem measured_start (w : World) : Measured w [] Run.start := by
  refine ⟨rfl, rfl, rfl, rfl, ?_, rfl, rfl, ?_⟩
  · intro e he
    simp [Run.start] at he
  · intro k n h
    simp at h

theorem measured_step (w : World) (sizes : List Int) (r : Run) (n : Int) (hn : 0 ≤ n)
    (h : Measured w sizes r) :
    ∃ r2, measureOne w r n = some r2 ∧ Measured w (sizes ++ [n]) r2 := by
  obtain ⟨hms, hlt, hst, hbt, hcalls, hseeds, hticks, hentry⟩ := h
  obtain ⟨arr, harr, hrun⟩ := measureOne_eq w r n hn
  refine ⟨_, hrun, ?_⟩
  refine ⟨by simp [hms], by simp [hlt], by simp [hst], by simp [hbt], ?_,
    by simp [hseeds], ?_, ?_⟩
  · intro e he
    simp only [List.mem_append, List.length_append, List.length_singleton] at he ⊢
    rcases he with he | he
    · have := hcalls e he
      omega
    · obtain ⟨c, _, rfl⟩ := List.mem_map.mp he
      simp only [hms]
      omega
  · simp only [List.length_append, List.length_singleton]
    rw [ticksBefore_snoc, hticks]
  · intro k m hk
    rcases Nat.lt_or_ge k sizes.length with hlt2 | hge
    · rw [List.getElem?_append_left hlt2] at hk
      obtain ⟨a, ha, h1, h2, h3, h4⟩ := hentry k m hk
      refine ⟨a, ha, ?_, ?_, ?_, ?_⟩
      · simp only []
        rw [List.getElem?_append_left (by omega), ticksBefore_append_of_le _ _ _ (by omega), h1]
      · simp only []
        rw [List.getElem?_append_left (by omega), ticksBefore_append_of_le _ _ _ (by omega), h2]
      · simp only []
        rw [List.getElem?_append_left (by omega), ticksBefore_append_of_le _ _ _ (by omega), h3]
      · simp only [callsOf, List.filter_append]
        rw [hms, segment_new_ne _ _ _ (by omega), List.append_nil]
        exact h4
    · rw [List.getElem?_append_right hge] at hk
      have hk0 : k = sizes.length := by
        by_contra hne
        have : k - sizes.length ≠ 0 := by omega
        obtain ⟨j, hj⟩ := Nat.exists_eq_succ_of_ne_zero this
        rw [hj] at hk
        simp at hk
      subst hk0
      simp only [Nat.sub_self, List.getElem?_cons_zero, Option.some.injEq] at hk
      subst hk
      rw [hseeds] at harr
      refine ⟨arr, harr, ?_, ?_, ?_, ?_⟩
      · simp only []
        rw [List.getElem?_append_right (by omega), ticksBefore_append_of_le _ _ _ (by omega),
          hlt, hticks]
        simp
      · simp only []
        rw [List.getElem?_append_right (by omega), ticksBefore_append_of_le _ _ _ (by omega),
          hst, hticks]
        simp
      · simp only []
        rw [List.getElem?_append_right (by omega), ticksBefore_append_of_le _ _ _ (by omega),
          hbt, hticks]
        simp
      · simp only [callsOf, List.filter_append]
        rw [hms, segment_old _ _ hcalls, List.nil_append, segment_new_eq]

/-- On a schedule of sizes that are not negative the measurement loop runs to its end and
records every entry. -/
theorem measureAll_measured (w : World) (sizes : List Int) (h : ∀ n ∈ sizes, 0 ≤ n) :
    ∃ r, measureAll w sizes = some r ∧ Measured w sizes r := by
  unfold measureAll
  induction sizes using List.reverseRecOn with
  | nil => exact ⟨Run.start, rfl, measured_start w⟩
  | append_singleton sizes n ih =>
    obtain ⟨r, hrun, hr⟩ := ih (fun m hm => h m (List.mem_append_left _ hm))
    obtain ⟨r2, hstep, hr2⟩ := measured_step w sizes r n (h n (by simp)) hr
    refine ⟨r2, ?_, hr2⟩
    rw [List.foldlM_append, hrun]
    simp [hstep]

/-! ## The schedule and the data file -/

theorem mem_foldl_merge (large all : List Int) (m : Int) :
    m ∈ large.foldl (fun all n => if n ∈ all then all else all ++ [n]) all ↔
      m ∈ all ∨ m ∈ large := by
  induction large generalizing all with
  | nil => simp
  | cons n rest ih =>
    rw [List.foldl_cons, ih]
    by_cases hn : n ∈ all
    · rw [if_pos hn]
      constructor
      · rintro (h | h)
        · exact Or.inl h
        · exact Or.inr (List.mem_cons_of_mem _ h)
      · rintro (h | h)
        · exact Or.inl h
        · rcases List.mem_cons.mp h with h | h
          · exact Or.inl (h ▸ hn)
          · exact Or.inr h
    · rw [if_neg hn]
      simp only [List.mem_append, List.mem_singleton, List.mem_cons]
      tauto

theorem mem_mergeSizes (small large : List Int) (m : Int) :
    m ∈ mergeSizes small large ↔ m ∈ small ∨ m ∈ large := by
  unfold mergeSizes
  rw [(stdSort_spec _).2.mem_iff, mem_foldl_merge]

theorem mergeSizes_sorted (small large : List Int) :
    (mergeSizes small large).Sorted (· ≤ ·) :=
  (stdSort_spec _).1

theorem dataRows_fill (r : Run) (hlt : r.linear_times.length = r.measured_sizes.length)
    (hst : r.sort_times.length = r.measured_sizes.length)
    (hbt : r.bubble_times.length = r.measured_sizes.length) (m : Nat)
    (hm : m ≤ r.measured_sizes.length) :
    forUpTo (m : Int) (fun i rows => do
        let n ← readAt r.measured_sizes i
        let tl ← readAt r.linear_times i
        let ts ← readAt r.sort_times i
        let tb ← readAt r.bubble_times i
        some (rows ++ [[n, tl, ts, tb]])) []
      = some ((List.range m).map (rowAt r)) := by
  induction m with
  | zero => simp [forUpTo]
  | succ m ih =>
    rw [forUpTo_succ, ih (Nat.le_of_succ_le hm), Option.some_bind]
    have h1 : m < r.measured_sizes.length := hm
    have h2 : m < r.linear_times.length := by omega
    have h3 : m < r.sort_times.length := by omega
    have h4 : m < r.bubble_times.length := by omega
    simp [readAt_natCast, List.getElem?_eq_getElem, h1, h2, h3, h4, List.range_succ, rowAt,
      List.getD_eq_getElem?_getD]

theorem dataRows_eq (r : Run) (hlt : r.linear_times.length = r.measured_sizes.length)
    (hst : r.sort_times.length = r.measured_sizes.length)
    (hbt : r.bubble_times.length = r.measured_sizes.length) :
    dataRows r = some ((List.range r.measured_sizes.length).map (rowAt r)) :=
  dataRows_fill r hlt hst hbt _ (Nat.le_refl _)

theorem measured_dataRows (w : World) (sizes : List Int) (r : Run) (h : Measured w sizes r) :
    dataRows r = some ((List.range sizes.length).map (rowAt r)) := by
  obtain ⟨hms, hlt, hst, hbt, _⟩ := h
  have := dataRows_eq r (by rw [hlt, hms]) (by rw [hst, hms]) (by rw [hbt, hms])
  rw [hms] at this
  exact this

theorem measured_rowAt (w : World) (sizes : List Int) (r : Run) (h : Measured w sizes r)
    (k : Nat) (n : Int) (hk : sizes[k]? = some n) :
    rowAt r k = [n, w.clock (ticksBefore sizes k), w.clock (ticksBefore sizes k + 1),
      if n ≤ 15000 then w.clock (ticksBefore sizes k + 2) else 0] := by
  obtain ⟨hms, _, _, _, _, _, _, hentry⟩ := h
  obtain ⟨arr, _, h1, h2, h3, _⟩ := hentry k n hk
  simp only [rowAt, List.getD_eq_getElem?_getD, hms, hk, h1, h2, h3, Option.getD_some]

theorem mergeSizes_nonneg (small large : List Int) (h : ∀ n ∈ small ++ large, 0 ≤ n) :
    ∀ n ∈ mergeSizes small large, 0 ≤ n := by
  intro n hn
  exact h n (List.mem_append.mpr ((mem_mergeSizes small large n).mp hn))

/-- The two ways a run ends once the loop has run and the data file is written. -/
theorem mainWith_eq (small large : List Int) (w : World) (r : Run) (rows : List (List Int))
    (hrun : measureAll w (mergeSizes small large) = some r) (hrows : dataRows r = some rows) :
    mainWith small large w =
      if w.gnuplot = 0 then
        (analysis r).bind (fun report => some {
          console := r.console ++ [Tok.text "\nGenerating plot...", Tok.endl] ++
            [Tok.text "Plot saved to: algorithm_comparison_plot.png", Tok.endl] ++ report,
          data := rows, exitCode := 0 })
      else
        some {
          console := r.console ++ [Tok.text "\nGenerating plot...", Tok.endl] ++
            [Tok.text "Error generating plot", Tok.endl],
          data := rows, exitCode := 0 } := by
  unfold mainWith
  rw [hrun]
  simp only [Option.bind_eq_bind, Option.some_bind]
  rw [hrows]
  simp only [Option.some_bind]

/-- The rows written from a recorded run over an ascending schedule. -/
theorem oneRowPerEntry_of_measured (w : World) (sizes : List Int) (r : Run)
    (h : Measured w sizes r) (hs : sizes.Sorted (· ≤ ·)) :
    OneRowPerEntry w sizes r ((List.range sizes.length).map (rowAt r)) := by
  refine ⟨by simp, hs, ?_⟩
  intro k n hk
  have hlt : k < sizes.length := by
    by_contra hge
    rw [List.getElem?_eq_none (not_lt.mp hge)] at hk
    cases hk
  have hget : ((List.range sizes.length).map (rowAt r))[k]? = some (rowAt r k) := by
    rw [List.getElem?_map, List.getElem?_range hlt]
    rfl
  refine ⟨?_, ?_⟩
  · rw [hget, measured_rowAt w _ r h k n hk]
  · rw [hget]
    rfl

/-- Whatever way a run ends, its data rows are the rows written after the loop. -/
theorem mainWith_data (small large : List Int) (w : World) (r : Run) (rows : List (List Int))
    (hrun : measureAll w (mergeSizes small large) = some r) (hrows : dataRows r = some rows)
    (out : Outcome) (hout : mainWith small large w = some out) : out.data = rows := by
  rw [mainWith_eq small large w r _ hrun hrows] at hout
  by_cases hg : w.gnuplot = 0
  · rw [if_pos hg] at hout
    cases hrep : analysis r with
    | none => rw [hrep] at hout; cases hout
    | some report =>
      rw [hrep] at hout
      simp only [Option.some_bind, Option.some.injEq] at hout
      rw [← hout]
  · rw [if_neg hg] at hout
    simp only [Option.some.injEq] at hout
    rw [← hout]

/-! ## The report on the console -/

theorem pairReport_eq (n1 n2 t1 t2 : Int) (hn : n1 ≠ 0) (ht : t1 ≠ 0) :
    pairReport n1 n2 t1 t2 = some (pairLines n1 n2 t1 t2) := by
  have hn2 : (n1 : ℚ) ≠ 0 := by exact_mod_cast hn
  have ht2 : (t1 : ℚ) ≠ 0 := by exact_mod_cast ht
  simp [pairReport, fdiv, hn2, ht2, pairLines]

/-- One turn of the loop over consecutive sizes. -/
theorem pairLoop_step (r : Run) (left k : Nat) (out : List Tok) (n1 n2 t1 t2 : Int)
    (h1 : r.measured_sizes[k]? = some n1) (h2 : r.measured_sizes[k + 1]? = some n2)
    (h3 : r.bubble_times[k]? = some t1) (h4 : r.bubble_times[k + 1]? = some t2)
    (hn : n1 ≠ 0) :
    pairLoop r (left + 1) ((k + 1 : Nat) : Int) out =
      if n2 ≤ 15000 then pairLoop r left ((k + 1 + 1 : Nat) : Int) (out ++ pairBlock n1 n2 t1 t2)
      else some out := by
  have hprev : (((k + 1 : Nat) : Int) - 1) = ((k : Nat) : Int) := by push_cast; ring
  have hnext : (((k + 1 : Nat) : Int) + 1) = ((k + 1 + 1 : Nat) : Int) := by push_cast; ring
  rw [pairLoop]
  rw [hprev, hnext, readAt_natCast, readAt_natCast, readAt_natCast, readAt_natCast, h1, h2, h3, h4]
  simp only [Option.bind_eq_bind, Option.some_bind]
  by_cases hc : n2 ≤ 15000
  · rw [if_pos hc, if_pos hc]
    by_cases hp1 : t1 > 0
    · rw [if_pos hp1]
      by_cases hp2 : t2 > 0
      · rw [if_pos hp2, pairReport_eq n1 n2 t1 t2 hn (by omega)]
        simp [pairBlock, hp1, hp2]
      · rw [if_neg hp2]
        simp [pairBlock, hp2]
    · rw [if_neg hp1]
      simp [pairBlock, hp1]
  · rw [if_neg hc, if_neg hc]

theorem all_sizes_eq : all_sizes = [1000, 2000, 3000, 5000, 7000, 10000, 15000, 20000, 30000,
    50000, 70000, 100000, 150000] := by
  decide

/-- What the measurement loop of the program has recorded when it ends. -/
theorem main_measured (w : World) :
    ∃ r rows, measureAll w all_sizes = some r ∧ Measured w all_sizes r ∧
      dataRows r = some rows ∧ rows = (List.range all_sizes.length).map (rowAt r) ∧
      r.measured_sizes = [1000, 2000, 3000, 5000, 7000, 10000, 15000, 20000, 30000, 50000,
        70000, 100000, 150000] ∧
      r.bubble_times = [w.clock 2, w.clock 5, w.clock 8, w.clock 11, w.clock 14, w.clock 17,
        w.clock 20, 0, 0, 0, 0, 0, 0] ∧
      r.linear_times[12]? = some (w.clock 31) ∧ r.sort_times[12]? = some (w.clock 32) := by
  have hpos : ∀ n ∈ all_sizes, 0 ≤ n := by decide
  obtain ⟨r, hrun, hr⟩ := measureAll_measured w all_sizes hpos
  have hrows := measured_dataRows w _ r hr
  have hr2 := hr
  obtain ⟨hms, _, _, hbt, _, _, _, hentry⟩ := hr
  refine ⟨r, _, hrun, hr2, hrows, rfl, by rw [hms, all_sizes_eq], ?_, ?_, ?_⟩
  · have hlen : r.bubble_times.length = 13 := by rw [hbt, all_sizes_eq]; rfl
    have hget : ∀ k n, all_sizes[k]? = some n → r.bubble_times[k]?
        = some (if n ≤ 15000 then w.clock (ticksBefore all_sizes k + 2) else 0) := by
      intro k n hk
      obtain ⟨_, _, _, _, h3, _⟩ := hentry k n hk
      exact h3
    apply List.ext_getElem?
    intro k
    rcases Nat.lt_or_ge k 13 with hk | hk
    · interval_cases k
      · rw [hget 0 1000 (by decide)]; rfl
      · rw [hget 1 2000 (by decide)]; rfl
      · rw [hget 2 3000 (by decide)]; rfl
      · rw [hget 3 5000 (by decide)]; rfl
      · rw [hget 4 7000 (by decide)]; rfl
      · rw [hget 5 10000 (by decide)]; rfl
      · rw [hget 6 15000 (by decide)]; rfl
      · rw [hget 7 20000 (by decide)]; rfl
      · rw [hget 8 30000 (by decide)]; rfl
      · rw [hget 9 50000 (by decide)]; rfl
      · rw [hget 10 70000 (by decide)]; rfl
      · rw [hget 11 100000 (by decide)]; rfl
      · rw [hget 12 150000 (by decide)]; rfl
    · rw [List.getElem?_eq_none (by omega), List.getElem?_eq_none (by simp; omega)]
  · obtain ⟨_, _, h1, _, _, _⟩ := hentry 12 150000 (by decide)
    rw [h1]; rfl
  · obtain ⟨_, _, _, h2, _, _⟩ := hentry 12 150000 (by decide)
    rw [h2]; rfl

/-- The analysis of a run of the program: the six pairs of consecutive sizes up to 15000, then
the final comparison. -/
theorem main_analysis (w : World) (r : Run)
    (hms : r.measured_sizes = [1000, 2000, 3000, 5000, 7000, 10000, 15000, 20000, 30000, 50000,
        70000, 100000, 150000])
    (hbt : r.bubble_times = [w.clock 2, w.clock 5, w.clock 8, w.clock 11, w.clock 14,
        w.clock 17, w.clock 20, 0, 0, 0, 0, 0, 0])
    (hlt : r.linear_times[12]? = some (w.clock 31))
    (hst : r.sort_times[12]? = some (w.clock 32)) :
    analysis r = some (analysisHeading ++
      (pairBlock 1000 2000 (w.clock 2) (w.clock 5) ++
       pairBlock 2000 3000 (w.clock 5) (w.clock 8) ++
       pairBlock 3000 5000 (w.clock 8) (w.clock 11) ++
       pairBlock 5000 7000 (w.clock 11) (w.clock 14) ++
       pairBlock 7000 10000 (w.clock 14) (w.clock 17) ++
       pairBlock 10000 15000 (w.clock 17) (w.clock 20)) ++
      finalComparison (w.clock 31) (w.clock 32) (w.clock 20)) := by
  have hloop : pairLoop r 12 1 [] = some
      (pairBlock 1000 2000 (w.clock 2) (w.clock 5) ++
       pairBlock 2000 3000 (w.clock 5) (w.clock 8) ++
       pairBlock 3000 5000 (w.clock 8) (w.clock 11) ++
       pairBlock 5000 7000 (w.clock 11) (w.clock 14) ++
       pairBlock 7000 10000 (w.clock 14) (w.clock 17) ++
       pairBlock 10000 15000 (w.clock 17) (w.clock 20)) := by
    have e1 : (1 : Int) = ((0 + 1 : Nat) : Int) := rfl
    rw [e1]
    rw [pairLoop_step r 11 0 _ 1000 2000 (w.clock 2) (w.clock 5) (by rw [hms]; rfl)
      (by rw [hms]; rfl) (by rw [hbt]; rfl) (by rw [hbt]; rfl) (by decide), if_pos (by decide)]
    rw [pairLoop_step r 10 1 _ 2000 3000 (w.clock 5) (w.clock 8) (by rw [hms]; rfl)
      (by rw [hms]; rfl) (by rw [hbt]; rfl) (by rw [hbt]; rfl) (by decide), if_pos (by decide)]
    rw [pairLoop_step r 9 2 _ 3000 5000 (w.clock 8) (w.clock 11) (by rw [hms]; rfl)
      (by rw [hms]; rfl) (by rw [hbt]; rfl) (by rw [hbt]; rfl) (by decide), if_pos (by decide)]
    rw [pairLoop_step r 8 3 _ 5000 7000 (w.clock 11) (w.clock 14) (by rw [hms]; rfl)
      (by rw [hms]; rfl) (by rw [hbt]; rfl) (by rw [hbt]; rfl) (by decide), if_pos (by decide)]
    rw [pairLoop_step r 7 4 _ 7000 10000 (w.clock 14) (w.clock 17) (by rw [hms]; rfl)
      (by rw [hms]; rfl) (by rw [hbt]; rfl) (by rw [hbt]; rfl) (by decide), if_pos (by decide)]
    rw [pairLoop_step r 6 5 _ 10000 15000 (w.clock 17) (w.clock 20) (by rw [hms]; rfl)
      (by rw [hms]; rfl) (by rw [hbt]; rfl) (by rw [hbt]; rfl) (by decide), if_pos (by decide)]
    rw [pairLoop_step r 5 6 _ 15000 20000 (w.clock 20) 0 (by rw [hms]; rfl)
      (by rw [hms]; rfl) (by rw [hbt]; rfl) (by rw [hbt]; rfl) (by decide), if_neg (by decide)]
    simp only [List.nil_append]
  have hlen : r.measured_sizes.length = 13 := by rw [hms]; rfl
  have hlast : ((r.measured_sizes.length : Int) - 1) = ((12 : Nat) : Int) := by
    rw [hlen]; rfl
  have h6 : readAt r.bubble_times 6 = some (w.clock 20) := by
    have e6 : (6 : Int) = ((6 : Nat) : Int) := rfl
    rw [e6, readAt_natCast, hbt]; rfl
  unfold analysis
  rw [hlen]
  simp only [Nat.add_one_sub_one, Option.bind_eq_bind] 
  rw [hloop]
  simp only [Option.some_bind]
  rw [show ((13 : Nat) : Int) - 1 = ((12 : Nat) : Int) from rfl, readAt_natCast, readAt_natCast,
    hlt, hst, h6]
  simp only [Option.some_bind]

theorem analysis_not_suffix_of_failure (pre mid : List Tok) (tl ts tb : Int) :
    ¬ (analysisHeading ++ mid ++ finalComparison tl ts tb) <:+
      (pre ++ [Tok.text "\nGenerating plot...", Tok.endl] ++
        [Tok.text "Error generating plot", Tok.endl]) := by
  rintro ⟨t, ht⟩
  have hfinal : finalComparison tl ts tb =
      [Tok.text "\n2. FINAL COMPARISON at n=100,000:", Tok.endl,
        Tok.text (rule '-'), Tok.endl,
        Tok.text "Linear Search O(n):     ", Tok.int tl, Tok.text " ms", Tok.endl,
        Tok.text "Sort O(n log n):        ", Tok.int ts, Tok.text " ms", Tok.endl,
        Tok.text "Bubble Sort O(n²):      Would take ~", Tok.int (tb * 100),
        Tok.text " ms (extrapolated!)"] ++
      [Tok.endl,
        Tok.text "\nNotice: Even though all start near 0ms, they diverge dramatically!",
        Tok.endl] := rfl
  have hright : pre ++ [Tok.text "\nGenerating plot...", Tok.endl] ++
      [Tok.text "Error generating plot", Tok.endl] =
      (pre ++ [Tok.text "\nGenerating plot..."]) ++
        [Tok.endl, Tok.text "Error generating plot", Tok.endl] := by
    simp
  rw [hfinal, hright, ← List.append_assoc, ← List.append_assoc, ← List.append_assoc] at ht
  have := (List.append_inj' ht rfl).2
  simp at this

/-- A run of the program ends, whatever the plotting tool does, and returns 0. -/
theorem main_outcome (w : World) :
    ∃ out r, main w = some out ∧ measureAll w all_sizes = some r ∧ Measured w all_sizes r ∧
      dataRows r = some out.data ∧ out.data = (List.range all_sizes.length).map (rowAt r) ∧
      out.exitCode = 0 := by
  obtain ⟨r, rows, hrun, hr, hrows, hrowsEq, hms, hbt, hlt, hst⟩ := main_measured w
  have hrep := main_analysis w r hms hbt hlt hst
  have hmain := mainWith_eq small_sizes large_sizes w r rows hrun hrows
  by_cases hg : w.gnuplot = 0
  · rw [if_pos hg, hrep, Option.some_bind] at hmain
    exact ⟨_, r, hmain, hrun, hr, hrows, hrowsEq, rfl⟩
  · rw [if_neg hg] at hmain
    exact ⟨_, r, hmain, hrun, hr, hrows, hrowsEq, rfl⟩

/-! ## Claims on the driver of the search/sort program -/

/-- Claim C8: the data file of the program has exactly one row per schedule entry, in the order
of the schedule, which is ascending; row `k` is the size of entry `k` followed by the linear
search time, the sort time and the bubble time recorded for that entry.  The same holds when
the schedule is the merge of any two lists of sizes (sizes are not negative), such as
`{10, 100}`. -/
theorem data_file_one_row_per_entry (w : World) :
    (∃ out r, main w = some out ∧ measureAll w all_sizes = some r ∧
      dataRows r = some out.data ∧ OneRowPerEntry w all_sizes r out.data ∧
      all_sizes.Sorted (· < ·)) ∧
    (∀ small large, (∀ n ∈ small ++ large, 0 ≤ n) →
      ∃ r rows, measureAll w (mergeSizes small large) = some r ∧ dataRows r = some rows ∧
        OneRowPerEntry w (mergeSizes small large) r rows ∧
        ∀ out, mainWith small large w = some out → out.data = rows) := by
  refine ⟨?_, ?_⟩
  · obtain ⟨out, r, hmain, hrun, hr, hrows, hrowsEq, _⟩ := main_outcome w
    refine ⟨out, r, hmain, hrun, hrows, ?_, ?_⟩
    · rw [hrowsEq]
      exact oneRowPerEntry_of_measured w _ r hr (mergeSizes_sorted _ _)
    · rw [all_sizes_eq]; decide
  · intro small large h
    obtain ⟨r, hrun, hr⟩ := measureAll_measured w _ (mergeSizes_nonneg small large h)
    have hrows := measured_dataRows w _ r hr
    exact ⟨r, _, hrun, hrows,
      oneRowPerEntry_of_measured w _ r hr (mergeSizes_sorted small large),
      fun out hout => mainWith_data small large w r _ hrun hrows out hout⟩

/-- Witness of C8 on the schedule `{10, 100}`: two rows, the row of 10 first. -/
theorem data_file_one_row_per_entry_witness :
    (∀ n ∈ [10] ++ [100], (0 : Int) ≤ n) ∧
    ∃ r rows, measureAll sampleWorld (mergeSizes [10] [100]) = some r ∧
      dataRows r = some rows ∧ rows.length = 2 ∧
      rows = [[10, 0, 1, 2], [100, 3, 4, 5]] ∧ dataText rows = "10 0 1 2\n100 3 4 5\n" := by
  have hpos : ∀ n ∈ [10] ++ [100], (0 : Int) ≤ n := by decide
  obtain ⟨r, rows, hrun, hrows, ⟨hlen, _, hrow⟩, _⟩ :=
    (data_file_one_row_per_entry sampleWorld).2 [10] [100] hpos
  have hlen2 : rows.length = 2 := by rw [hlen]; decide
  have h0 : rows[0]? = some [10, 0, 1, 2] := by
    rw [(hrow 0 10 (by decide)).1]; decide
  have h1 : rows[1]? = some [100, 3, 4, 5] := by
    rw [(hrow 1 100 (by decide)).1]; decide
  have heq : rows = [[10, 0, 1, 2], [100, 3, 4, 5]] := by
    apply List.ext_getElem?
    intro k
    rcases k with _ | _ | k
    · rw [h0]; rfl
    · rw [h1]; rfl
    · rw [List.getElem?_eq_none (by omega), List.getElem?_eq_none (by simp)]
  refine ⟨hpos, r, rows, hrun, hrows, hlen2, heq, ?_⟩
  rw [heq]
  decide

/-! ## Claim on the plotting tool -/

/-- Claim C9, as stated, fails: when the plotting tool exits with status 1 the run still returns
0, but the console report does not end with the growth-rate analysis of the run; it ends with
the failure notice. -/
theorem failed_plot_report_lacks_analysis :
    ∃ out r report, main failingWorld = some out ∧
      measureAll failingWorld all_sizes = some r ∧ analysis r = some report ∧
      out.exitCode = 0 ∧ ¬ report <:+ out.console ∧
      [Tok.text "Error generating plot", Tok.endl] <:+ out.console := by
  obtain ⟨r, rows, hrun, _, hrows, _, hms, hbt, hlt, hst⟩ := main_measured failingWorld
  have hrep := main_analysis failingWorld r hms hbt hlt hst
  have hmain := mainWith_eq small_sizes large_sizes failingWorld r rows hrun hrows
  rw [if_neg (show ¬ failingWorld.gnuplot = 0 by decide)] at hmain
  refine ⟨_, r, _, hmain, hrun, hrep, rfl, ?_, ?_⟩
  · exact analysis_not_suffix_of_failure _ _ _ _ _
  · exact List.suffix_append _ _

/-- Claim C9, amended: a failing plotting tool is not fatal.  For every exit status of the
plotting tool the program writes the data file and returns 0.  When the status is 0 the console
report ends with the growth-rate analysis: the heading, then for each of the six pairs of
consecutive sizes up to 15000 whose two bubble times are positive the size ratio, the time ratio
and the squared size ratio, then the final comparison.  When the status is not 0 the report ends
with the notice `Error generating plot`, printed in place of the analysis. -/
theorem plot_failure_not_fatal (w : World) :
    ∃ out r, main w = some out ∧ measureAll w all_sizes = some r ∧ out.exitCode = 0 ∧
      dataRows r = some out.data ∧
      (w.gnuplot ≠ 0 → out.console = r.console ++
        [Tok.text "\nGenerating plot...", Tok.endl, Tok.text "Error generating plot",
          Tok.endl]) ∧
      (w.gnuplot = 0 → ∃ report, analysis r = some report ∧ report <:+ out.console ∧
        report = analysisHeading ++
          (pairBlock 1000 2000 (w.clock 2) (w.clock 5) ++
           pairBlock 2000 3000 (w.clock 5) (w.clock 8) ++
           pairBlock 3000 5000 (w.clock 8) (w.clock 11) ++
           pairBlock 5000 7000 (w.clock 11) (w.clock 14) ++
           pairBlock 7000 10000 (w.clock 14) (w.clock 17) ++
           pairBlock 10000 15000 (w.clock 17) (w.clock 20)) ++
          finalComparison (w.clock 31) (w.clock 32) (w.clock 20)) := by
  obtain ⟨r, rows, hrun, _, hrows, _, hms, hbt, hlt, hst⟩ := main_measured w
  have hrep := main_analysis w r hms hbt hlt hst
  have hmain := mainWith_eq small_sizes large_sizes w r rows hrun hrows
  by_cases hg : w.gnuplot = 0
  · rw [if_pos hg, hrep, Option.some_bind] at hmain
    refine ⟨_, r, hmain, hrun, rfl, hrows, fun h => absurd hg h, fun _ => ?_⟩
    exact ⟨_, hrep, List.suffix_append _ _, rfl⟩
  · rw [if_neg hg] at hmain
    refine ⟨_, r, hmain, hrun, rfl, hrows, fun _ => by simp, fun h => absurd h hg⟩

/-- Witness of the amended C9 in a world whose plotting tool succeeds. -/
theorem plot_failure_not_fatal_witness :
    sampleWorld.gnuplot = 0 ∧
    ∃ out r report, main sampleWorld = some out ∧ measureAll sampleWorld all_sizes = some r ∧
      out.exitCode = 0 ∧ analysis r = some report ∧ report <:+ out.console := by
  obtain ⟨out, r, hmain, hrun, hexit, _, _, hok⟩ := plot_failure_not_fatal sampleWorld
  obtain ⟨report, hrep, hsuf, _⟩ := hok rfl
  exact ⟨rfl, out, r, report, hmain, hrun, hexit, hrep, hsuf⟩

/-! ## The matrix experiment and the fit -/

theorem writeRow_square {n : Nat} {M : List (List ℚ)} (hM : IsSquare n M) (i j : Nat)
    (hi : i < n) (hj : j < n) (x : ℚ) :
    ∃ M2, (do
        let row ← readAt M (i : Int)
        let row ← writeAt row (j : Int) x
        writeAt M (i : Int) row) = some M2 ∧ IsSquare n M2 := by
  obtain ⟨row, hrow, hlen⟩ := hM.row_length i hi
  have hj2 : j < row.length := by rw [hlen]; exact hj
  have hi2 : i < M.length := by rw [hM.1]; exact hi
  refine ⟨M.set i (row.set j x), ?_, ?_⟩
  · rw [readAt_natCast, hrow]
    simp only [Option.bind_eq_bind, Option.some_bind]
    rw [writeAt_natCast _ _ _ hj2, Option.some_bind, writeAt_natCast _ _ _ hi2]
  · refine ⟨by simp [hM.1], ?_⟩
    intro r hr
    rcases List.mem_or_eq_of_mem_set hr with h | h
    · exact hM.2 r h
    · rw [h, List.length_set, hlen]

theorem generateMatrix_row {n : Nat} {M : List (List ℚ)} (hM : IsSquare n M) (i : Nat)
    (hi : i < n) (draws : Nat → Nat → ℚ) (m : Nat) (hm : m ≤ n) :
    ∃ M2, forUpTo (m : Int) (fun j M => do
        let row ← readAt M (i : Int)
        let row ← writeAt row j (uniformReal (draws (i : Int).toNat j.toNat))
        writeAt M (i : Int) row) M = some M2 ∧ IsSquare n M2 := by
  induction m with
  | zero => exact ⟨M, forUpTo_zero _ _, hM⟩
  | succ m ih =>
    obtain ⟨M1, hrun, hM1⟩ := ih (Nat.le_of_succ_le hm)
    obtain ⟨M2, hstep, hM2⟩ := writeRow_square hM1 i m hi hm
      (uniformReal (draws (i : Int).toNat (m : Int).toNat))
    exact ⟨M2, by rw [forUpTo_succ, hrun, Option.some_bind, hstep], hM2⟩

theorem generateMatrix_rows {n : Nat} {M : List (List ℚ)} (hM : IsSquare n M)
    (draws : Nat → Nat → ℚ) (m : Nat) (hm : m ≤ n) :
    ∃ M2, forUpTo (m : Int) (fun i M =>
        forUpTo (n : Int) (fun j M => do
          let row ← readAt M i
          let row ← writeAt row j (uniformReal (draws i.toNat j.toNat))
          writeAt M i row) M) M = some M2 ∧ IsSquare n M2 := by
  induction m with
  | zero => exact ⟨M, forUpTo_zero _ _, hM⟩
  | succ m ih =>
    obtain ⟨M1, hrun, hM1⟩ := ih (Nat.le_of_succ_le hm)
    obtain ⟨M2, hstep, hM2⟩ := generateMatrix_row hM1 m hm draws n (Nat.le_refl n)
    exact ⟨M2, by rw [forUpTo_succ, hrun, Option.some_bind, hstep], hM2⟩

/-- A random matrix of a size that is not negative is made, and it is square. -/
theorem generateMatrix_square (n : Int) (draws : Nat → Nat → ℚ) (hn : 0 ≤ n) :
    ∃ M, generateMatrix n draws = some M ∧ IsSquare n.toNat M := by
  unfold generateMatrix
  rw [if_neg (not_lt.mpr hn)]
  have hcast : n = ((n.toNat : Nat) : Int) := (Int.toNat_of_nonneg hn).symm
  obtain ⟨M, hrun, hM⟩ := generateMatrix_rows (isSquare_zero (0 : ℚ) n.toNat) draws n.toNat
    (Nat.le_refl _)
  rw [← hcast] at hrun
  exact ⟨M, hrun, hM⟩

/-- The measurement loop of the matrix program records every size with its own timing. -/
theorem measureMatrices_eq (w : MatrixWorld) (sizes : List Int) (h : ∀ n ∈ sizes, 0 ≤ n) :
    measureMatrices w sizes = some (sizes, (List.range sizes.length).map w.clock) := by
  unfold measureMatrices
  induction sizes using List.reverseRecOn with
  | nil => rfl
  | append_singleton sizes n ih =>
    have hn : 0 ≤ n := h n (by simp)
    obtain ⟨A, hA, hAsq⟩ := generateMatrix_square n (w.entropy (2 * sizes.length)) hn
    obtain ⟨B, hB, hBsq⟩ := generateMatrix_square n (w.entropy (2 * sizes.length + 1)) hn
    rw [List.foldlM_append, ih (fun m hm => h m (List.mem_append_left _ hm))]
    simp [hA, hB, multiplyMatrices_eq hAsq hBsq, List.range_succ]

/-- State of the fitting loop after `m` measurements: the sum of `time / (n * n * n)` and the
count, over the measurements with a positive time among the first `m`. -/
theorem fit_loop (measured_sizes measured_times : List Int)
    (hlen : measured_times.length = measured_sizes.length)
    (hsizes : ∀ n ∈ measured_sizes, n ≠ 0) (m : Nat) (hm : m ≤ measured_sizes.length) :
    forUpTo (m : Int) (fun i (acc : ℚ × Int) => do
        let t ← readAt measured_times i
        if t > 0 then
          let n ← readAt measured_sizes i
          let q ← fdiv (t : ℚ) ((n : ℚ) * n * n)
          some (acc.1 + q, acc.2 + 1)
        else some acc) (0, 0)
      = some
        (((((measured_sizes.zip measured_times).take m).filter (fun p => 0 < p.2)).map
            (fun p => (p.2 : ℚ) / ((p.1 : ℚ) * p.1 * p.1))).sum,
          (((((measured_sizes.zip measured_times).take m).filter
            (fun p => 0 < p.2)).length : Nat) : Int)) := by
  induction m with
  | zero => simp [forUpTo]
  | succ m ih =>
    have h1 : m < measured_sizes.length := hm
    have h2 : m < measured_times.length := by omega
    have hz : m < (measured_sizes.zip measured_times).length := by
      simp; omega
    have htake : (measured_sizes.zip measured_times).take (m + 1)
        = (measured_sizes.zip measured_times).take m ++
          [(measured_sizes[m], measured_times[m])] := by
      rw [List.take_succ, List.getElem?_eq_getElem hz]
      simp
    have hne : ((measured_sizes[m] : Int) : ℚ) * measured_sizes[m] * measured_sizes[m] ≠ 0 := by
      have h0 : measured_sizes[m] ≠ 0 := hsizes _ (List.getElem_mem h1)
      have h0q : ((measured_sizes[m] : Int) : ℚ) ≠ 0 := by exact_mod_cast h0
      exact mul_ne_zero (mul_ne_zero h0q h0q) h0q
    rw [forUpTo_succ, ih (Nat.le_of_succ_le hm), Option.some_bind, htake, List.filter_append]
    simp only [readAt_natCast, List.getElem?_eq_getElem h1, List.getElem?_eq_getElem h2,
      Option.bind_eq_bind, Option.some_bind]
    by_cases ht : measured_times[m] > 0
    · have hf : List.filter (fun p : Int × Int => decide (0 < p.2))
          [(measured_sizes[m], measured_times[m])] = [(measured_sizes[m], measured_times[m])] := by
        simp [ht]
      rw [if_pos ht, hf]
      simp [fdiv, hne]
    · have hf : List.filter (fun p : Int × Int => decide (0 < p.2))
          [(measured_sizes[m], measured_times[m])] = [] := by
        simp [ht]
      rw [if_neg ht, hf]
      simp

/-- The fit on measurements with sizes that are not zero and times that are not negative. -/
theorem fitConstant_eq (measured_sizes measured_times : List Int)
    (hlen : measured_times.length = measured_sizes.length)
    (hsizes : ∀ n ∈ measured_sizes, n ≠ 0) (htimes : ∀ t ∈ measured_times, 0 ≤ t) :
    fitConstant measured_sizes measured_times = some
      (if nonzeroMeasurements measured_sizes measured_times = [] then 1 / 1000000
       else ratioMean (nonzeroMeasurements measured_sizes measured_times)) := by
  have hfilter : (measured_sizes.zip measured_times).filter (fun p => 0 < p.2)
      = nonzeroMeasurements measured_sizes measured_times := by
    unfold nonzeroMeasurements
    apply List.filter_congr
    intro p hp
    have hp2 : 0 ≤ p.2 := htimes _ (List.of_mem_zip hp).2
    by_cases h0 : p.2 = 0
    · simp [h0]
    · have : 0 < p.2 := lt_of_le_of_ne hp2 (Ne.symm h0)
      simp [h0, this]
  have hloop := fit_loop measured_sizes measured_times hlen hsizes measured_sizes.length
    (Nat.le_refl _)
  have hall : (measured_sizes.zip measured_times).take measured_sizes.length
      = measured_sizes.zip measured_times := by
    apply List.take_of_length_le
    simp
  rw [hall, hfilter] at hloop
  unfold fitConstant
  rw [hloop]
  simp only [Option.bind_eq_bind, Option.some_bind]
  by_cases hnil : nonzeroMeasurements measured_sizes measured_times = []
  · simp [hnil]
  · have hpos : 0 < (nonzeroMeasurements measured_sizes measured_times).length :=
      List.length_pos.mpr hnil
    have hposI :
        (((nonzeroMeasurements measured_sizes measured_times).length : Nat) : Int) > 0 := by
      exact_mod_cast hpos
    have hneq : ((((nonzeroMeasurements measured_sizes measured_times).length : Nat) : Int) : ℚ)
        ≠ 0 := by
      have : (nonzeroMeasurements measured_sizes measured_times).length ≠ 0 := by omega
      exact_mod_cast this
    rw [if_pos hposI, if_neg hnil]
    have hcube : (fun p : Int × Int => (p.2 : ℚ) / ((p.1 : ℚ) * p.1 * p.1))
        = (fun p : Int × Int => (p.2 : ℚ) / (p.1 : ℚ) ^ 3) := by
      funext p
      congr 1
      ring
    simp only [fdiv, hneq, if_false, ratioMean, hcube]
    simp

/-- The fit of a run of the matrix program on a schedule of positive sizes, the elapsed times
being not negative. -/
theorem fittedConstant_eq (schedule : List Int) (w : MatrixWorld)
    (hsizes : ∀ n ∈ schedule, 0 < n) (htimes : ∀ k, 0 ≤ w.clock k) :
    ∃ times, measureMatrices w schedule = some (schedule, times) ∧
      times = (List.range schedule.length).map w.clock ∧
      FitIsMean schedule times (fittedConstant schedule w) := by
  have hrun := measureMatrices_eq w schedule (fun n hn => le_of_lt (hsizes n hn))
  have hfit := fitConstant_eq schedule ((List.range schedule.length).map w.clock) (by simp)
    (fun n hn => ne_of_gt (hsizes n hn))
    (fun t ht => by
      obtain ⟨k, _, rfl⟩ := List.mem_map.mp ht
      exact htimes k)
  have hc : fittedConstant schedule w = some
      (if nonzeroMeasurements schedule ((List.range schedule.length).map w.clock) = []
        then 1 / 1000000
       else ratioMean
        (nonzeroMeasurements schedule ((List.range schedule.length).map w.clock))) := by
    unfold fittedConstant
    rw [hrun]
    simp only [Option.bind_eq_bind, Option.some_bind]
    exact hfit
  refine ⟨_, hrun, rfl, hc, ?_⟩
  intro hzero
  have hnil : nonzeroMeasurements schedule ((List.range schedule.length).map w.clock) = [] := by
    unfold nonzeroMeasurements
    apply List.filter_eq_nil_iff.mpr
    intro p hp
    simp [hzero p.2 (List.of_mem_zip hp).2]
  rw [hc, if_pos hnil]

/-! ## Claim on the fit -/

/-- Claim C10: in the matrix program, the elapsed times being not negative, the fitted constant
`c` is computed without a division by zero (the result is `some c`); `c` is the arithmetic mean
of `time / n³` over exactly the measurements whose time is not zero; and when every time is zero
`c` is the fallback `1e-6`.  The same holds on every schedule of positive sizes. -/
theorem fitted_constant_is_mean (w : MatrixWorld) (htimes : ∀ k, 0 ≤ w.clock k) :
    (∃ times, measureMatrices w sizes = some (sizes, times) ∧
      times = (List.range sizes.length).map w.clock ∧
      FitIsMean sizes times (fittedConstant sizes w)) ∧
    (∀ schedule, (∀ n ∈ schedule, 0 < n) →
      ∃ times, measureMatrices w schedule = some (schedule, times) ∧
        times = (List.range schedule.length).map w.clock ∧
        FitIsMean schedule times (fittedConstant schedule w)) :=
  ⟨fittedConstant_eq sizes w (by decide) htimes,
    fun schedule hsizes => fittedConstant_eq schedule w hsizes htimes⟩

/-- Witness of C10 on the schedule of the matrix program, the `k`-th product taking `k`
milliseconds: the first measurement is zero and is left out of the mean. -/
theorem fitted_constant_is_mean_witness :
    (∀ k, 0 ≤ sampleMatrixWorld.clock k) ∧
    fittedConstant sizes sampleMatrixWorld = some (ratioMean
      [(20, 1), (50, 2), (100, 3), (150, 4), (200, 5), (250, 6), (300, 7), (350, 8),
        (400, 9)]) := by
  have htimes : ∀ k, 0 ≤ sampleMatrixWorld.clock k := fun k => Int.natCast_nonneg k
  obtain ⟨times, _, htimesEq, hc, _⟩ := (fitted_constant_is_mean sampleMatrixWorld htimes).1
  refine ⟨htimes, ?_⟩
  rw [hc, htimesEq]
  have hpts : nonzeroMeasurements sizes ((List.range sizes.length).map sampleMatrixWorld.clock)
      = [(20, 1), (50, 2), (100, 3), (150, 4), (200, 5), (250, 6), (300, 7), (350, 8),
        (400, 9)] := by
    decide
  rw [hpts]
  rfl

end RunningTimes

